import Mathlib

/-!
# Verification of the request-proxying core of a multi-tenant API gateway

Shallow embedding of the gateway's core components, translated from the
TypeScript source:

* circuit breaker (`src/shared/circuit-breaker/index.ts`)
* sliding-window rate limiter (`src/shared/rate-limiter/index.ts`)
* load balancer (`src/shared/load-balancer/index.ts`)
* retry wrapper (`src/shared/retry/index.ts`)
* route matcher (`src/modules/routing/routing.service.ts` together with the
  repository's active filter)
* tenant authenticator and auth middleware
  (`src/modules/tenant/tenant.service.ts`, `src/middleware/tenant-auth.ts`)
* upstream URL construction and path rewrite of the proxy handler
  (`routing.handler.ts`, `src/shared/transformer/index.ts`)

Host primitives are modelled explicitly: `Date.now()` becomes an `Int`
parameter supplied per call, `Math.random()` a rational parameter, Redis a
value of an explicit state type threaded through each operation, bcrypt
comparison and `RegExp` an oracle function parameter.  JavaScript numbers
used for weights and random draws are modelled as exact rationals.
-/

namespace Gateway

/-! ## Circuit breaker (src/shared/circuit-breaker/index.ts) -/

/-- The three circuit-breaker states (`CircuitBreakerState`). -/
inductive CBState where
  | CLOSED
  | OPEN
  | HALF_OPEN
  deriving DecidableEq, Repr

/-- `CircuitBreakerStatus`: the JSON record persisted in the shared cache. -/
structure CircuitBreakerStatus where
  state : CBState
  failures : Nat
  successes : Nat
  lastFailureTime : Option Int
  lastStateChange : Int
  deriving DecidableEq, Repr

/-- `CircuitBreakerConfig`: `enabled`, thresholds, and `timeout` in ms. -/
structure CircuitBreakerConfig where
  enabled : Bool
  failureThreshold : Nat
  successThreshold : Nat
  timeout : Nat
  deriving DecidableEq, Repr

/-- `getDefaultStatus()`: fresh CLOSED status; `lastStateChange = Date.now()`. -/
def getDefaultStatus (now : Int) : CircuitBreakerStatus :=
  { state := .CLOSED
    failures := 0
    successes := 0
    lastFailureTime := none
    lastStateChange := now }

/-- `getTtl()`: `Math.ceil((timeout + 60000) / 1000)` seconds. -/
def getTtl (cfg : CircuitBreakerConfig) : Nat :=
  (cfg.timeout + 60000 + 999) / 1000

/-- One cache entry under the breaker's `cb:` key: the stored status plus the
TTL (seconds) given to `SETEX` at the last write. -/
structure CacheEntry where
  status : CircuitBreakerStatus
  ttlSeconds : Nat
  deriving DecidableEq, Repr

/-- `setStatus(status)`: the `SETEX` payload written by the breaker. -/
def setStatus (cfg : CircuitBreakerConfig) (status : CircuitBreakerStatus) :
    CacheEntry :=
  { status := status, ttlSeconds := getTtl cfg }

/-- `getStatus()`: read the cache; a missing key yields the default status. -/
def getStatus (cache : Option CacheEntry) (now : Int) : CircuitBreakerStatus :=
  (cache.map CacheEntry.status).getD (getDefaultStatus now)

/-- `canExecute()`.  Returns the boolean answer, the cache after the call, and
the list of cache writes performed (in order). -/
def canExecute (cache : Option CacheEntry) (cfg : CircuitBreakerConfig)
    (now : Int) : Bool × Option CacheEntry × List CacheEntry :=
  if !cfg.enabled then (true, cache, [])
  else
    let status := getStatus cache now
    match status.state with
    | .CLOSED => (true, cache, [])
    | .OPEN =>
        if (cfg.timeout : Int) ≤ now - status.lastStateChange then
          let e := setStatus cfg
            { status with state := .HALF_OPEN, successes := 0,
                          lastStateChange := now }
          (true, some e, [e])
        else (false, cache, [])
    | .HALF_OPEN => (true, cache, [])

/-- `recordSuccess()`.  Returns the cache after the call and the writes. -/
def recordSuccess (cache : Option CacheEntry) (cfg : CircuitBreakerConfig)
    (now : Int) : Option CacheEntry × List CacheEntry :=
  if !cfg.enabled then (cache, [])
  else
    let status := getStatus cache now
    if status.state = .HALF_OPEN then
      let newSuccesses := status.successes + 1
      if cfg.successThreshold ≤ newSuccesses then
        let e := setStatus cfg
          { state := .CLOSED, failures := 0, successes := 0,
            lastFailureTime := status.lastFailureTime, lastStateChange := now }
        (some e, [e])
      else
        let e := setStatus cfg { status with successes := newSuccesses }
        (some e, [e])
    else if status.state = .CLOSED ∧ 0 < status.failures then
      let e := setStatus cfg { status with failures := 0 }
      (some e, [e])
    else (cache, [])

/-- `recordFailure()`.  Returns the cache after the call and the writes. -/
def recordFailure (cache : Option CacheEntry) (cfg : CircuitBreakerConfig)
    (now : Int) : Option CacheEntry × List CacheEntry :=
  if !cfg.enabled then (cache, [])
  else
    let status := getStatus cache now
    if status.state = .HALF_OPEN then
      let e := setStatus cfg
        { state := .OPEN, failures := status.failures + 1, successes := 0,
          lastFailureTime := some now, lastStateChange := now }
      (some e, [e])
    else if status.state = .CLOSED then
      let newFailures := status.failures + 1
      if cfg.failureThreshold ≤ newFailures then
        let e := setStatus cfg
          { state := .OPEN, failures := newFailures, successes := 0,
            lastFailureTime := some now, lastStateChange := now }
        (some e, [e])
      else
        let e := setStatus cfg
          { status with failures := newFailures, lastFailureTime := some now }
        (some e, [e])
    else (cache, [])

/-- Iterate `recordFailure` over a list of call times, keeping the cache. -/
def foldFailures (cfg : CircuitBreakerConfig) (cache : Option CacheEntry)
    (times : List Int) : Option CacheEntry :=
  times.foldl (fun c t => (recordFailure c cfg t).1) cache

/-- Invariant of the failure-accumulation phase: the cache is either still
empty (no failure recorded) or holds a CLOSED status with `j` failures. -/
def ClosedInv (cache : Option CacheEntry) (j : Nat) : Prop :=
  (cache = none ∧ j = 0) ∨
    ∃ e, cache = some e ∧ e.status.state = .CLOSED ∧ e.status.failures = j

theorem recordFailure_none_eval (cfg : CircuitBreakerConfig) (t : Int)
    (hen : cfg.enabled = true) :
    recordFailure none cfg t =
      if cfg.failureThreshold ≤ 1 then
        (some (setStatus cfg ⟨.OPEN, 1, 0, some t, t⟩),
         [setStatus cfg ⟨.OPEN, 1, 0, some t, t⟩])
      else
        (some (setStatus cfg ⟨.CLOSED, 1, 0, some t, t⟩),
         [setStatus cfg ⟨.CLOSED, 1, 0, some t, t⟩]) := by
  simp [recordFailure, getStatus, getDefaultStatus, hen]

theorem recordFailure_closed_eval (cfg : CircuitBreakerConfig)
    (st : CircuitBreakerStatus) (ttl : Nat) (t : Int)
    (hen : cfg.enabled = true) (hst : st.state = .CLOSED) :
    recordFailure (some ⟨st, ttl⟩) cfg t =
      if cfg.failureThreshold ≤ st.failures + 1 then
        (some (setStatus cfg ⟨.OPEN, st.failures + 1, 0, some t, t⟩),
         [setStatus cfg ⟨.OPEN, st.failures + 1, 0, some t, t⟩])
      else
        (some (setStatus cfg
           { st with failures := st.failures + 1, lastFailureTime := some t }),
         [setStatus cfg
           { st with failures := st.failures + 1, lastFailureTime := some t }]) := by
  simp only [recordFailure, getStatus, hen, Bool.not_true,
    Option.map_some', Option.getD_some]
  simp [hst]

theorem recordFailure_stays_closed (cfg : CircuitBreakerConfig)
    (cache : Option CacheEntry) (t : Int) (j : Nat)
    (hen : cfg.enabled = true) (hInv : ClosedInv cache j)
    (hlt : j + 1 < cfg.failureThreshold) :
    ClosedInv (recordFailure cache cfg t).1 (j + 1) := by
  rcases hInv with ⟨hc, hj⟩ | ⟨e, hc, hst, hf⟩
  · subst hc hj
    rw [show (recordFailure none cfg t).1 =
        some (setStatus cfg ⟨.CLOSED, 1, 0, some t, t⟩) by
      rw [recordFailure_none_eval cfg t hen, if_neg (by omega)]]
    exact Or.inr ⟨_, rfl, rfl, rfl⟩
  · obtain ⟨st, ttl⟩ := e
    subst hc
    simp only [CacheEntry.status] at hst hf
    rw [show (recordFailure (some ⟨st, ttl⟩) cfg t).1 =
        some (setStatus cfg
          { st with failures := st.failures + 1,
                    lastFailureTime := some t }) by
      rw [recordFailure_closed_eval cfg st ttl t hen hst, if_neg (by omega)]]
    exact Or.inr ⟨_, rfl, by simpa [setStatus] using hst, by simp [setStatus, hf]⟩

theorem recordFailure_trips_open (cfg : CircuitBreakerConfig)
    (cache : Option CacheEntry) (t : Int)
    (hen : cfg.enabled = true)
    (hInv : ClosedInv cache (cfg.failureThreshold - 1))
    (hpos : 0 < cfg.failureThreshold) :
    (recordFailure cache cfg t).1 = some (setStatus cfg
      { state := .OPEN, failures := cfg.failureThreshold, successes := 0,
        lastFailureTime := some t, lastStateChange := t }) := by
  rcases hInv with ⟨hc, hj⟩ | ⟨e, hc, hst, hf⟩
  · subst hc
    have hk : cfg.failureThreshold = 1 := by omega
    rw [recordFailure_none_eval cfg t hen, if_pos (by omega), hk]
  · obtain ⟨st, ttl⟩ := e
    subst hc
    simp only [CacheEntry.status] at hst hf
    rw [recordFailure_closed_eval cfg st ttl t hen hst, if_pos (by omega)]
    have hsum : st.failures + 1 = cfg.failureThreshold := by omega
    simp [hsum]

theorem foldFailures_closedInv (cfg : CircuitBreakerConfig)
    (hen : cfg.enabled = true) :
    ∀ (times : List Int) (cache : Option CacheEntry) (j : Nat),
      ClosedInv cache j → j + times.length < cfg.failureThreshold →
      ClosedInv (foldFailures cfg cache times) (j + times.length) := by
  intro times
  induction times with
  | nil => intro cache j hInv _; simpa [foldFailures] using hInv
  | cons t rest ih =>
      intro cache j hInv hlt
      have hlen : (t :: rest).length = rest.length + 1 := by simp
      have h1 : ClosedInv (recordFailure cache cfg t).1 (j + 1) :=
        recordFailure_stays_closed cfg cache t j hen hInv
          (by rw [hlen] at hlt; omega)
      have h2 := ih (recordFailure cache cfg t).1 (j + 1) h1
        (by rw [hlen] at hlt; omega)
      have harith : j + 1 + rest.length = j + (t :: rest).length := by
        rw [hlen]; omega
      rw [← harith]
      simpa [foldFailures] using h2

/-- C4: starting from the fresh CLOSED status, `failureThreshold` sequential
`recordFailure()` calls leave the stored state OPEN; `canExecute()` then
returns `false` without writing while `now - lastStateChange < timeout`, and
once `now - lastStateChange ≥ timeout` it writes the HALF_OPEN status with
`successes = 0` and an updated `lastStateChange` and returns `true`. -/
theorem c4_failure_threshold_opens_then_half_open
    (cfg : CircuitBreakerConfig) (k : Nat) (init : List Int) (tlast t : Int)
    (hen : cfg.enabled = true) (hk : cfg.failureThreshold = k)
    (hlen : init.length + 1 = k) :
    foldFailures cfg none (init ++ [tlast]) = some (setStatus cfg
      { state := .OPEN, failures := k, successes := 0,
        lastFailureTime := some tlast, lastStateChange := tlast }) ∧
    (t - tlast < (cfg.timeout : Int) →
      canExecute (foldFailures cfg none (init ++ [tlast])) cfg t =
        (false, foldFailures cfg none (init ++ [tlast]), [])) ∧
    ((cfg.timeout : Int) ≤ t - tlast →
      canExecute (foldFailures cfg none (init ++ [tlast])) cfg t =
        (true,
         some (setStatus cfg
           { state := .HALF_OPEN, failures := k, successes := 0,
             lastFailureTime := some tlast, lastStateChange := t }),
         [setStatus cfg
           { state := .HALF_OPEN, failures := k, successes := 0,
             lastFailureTime := some tlast, lastStateChange := t }])) := by
  have hInv : ClosedInv (foldFailures cfg none init) init.length := by
    have := foldFailures_closedInv cfg hen init none 0 (Or.inl ⟨rfl, rfl⟩)
      (by omega)
    simpa using this
  have hInv2 : ClosedInv (foldFailures cfg none init)
      (cfg.failureThreshold - 1) := by
    have heq : init.length = cfg.failureThreshold - 1 := by omega
    rw [heq] at hInv; exact hInv
  have hfold : foldFailures cfg none (init ++ [tlast]) = some (setStatus cfg
      { state := .OPEN, failures := k, successes := 0,
        lastFailureTime := some tlast, lastStateChange := tlast }) := by
    have hstep := recordFailure_trips_open cfg (foldFailures cfg none init)
      tlast hen hInv2 (by omega)
    calc foldFailures cfg none (init ++ [tlast])
        = (recordFailure (foldFailures cfg none init) cfg tlast).1 := by
          simp [foldFailures]
      _ = _ := by rw [hstep, hk]
  refine ⟨hfold, ?_, ?_⟩
  · intro hlt
    rw [hfold]
    simp only [canExecute, getStatus, hen, Bool.not_true, setStatus,
      Option.map_some', Option.getD_some]
    simp only [reduceCtorEq, if_false, if_true]
    rw [if_neg (by omega)]
  · intro hge
    rw [hfold]
    simp only [canExecute, getStatus, hen, Bool.not_true, setStatus,
      Option.map_some', Option.getD_some]
    simp only [reduceCtorEq, if_false, if_true]
    rw [if_pos (by omega)]

/-- Witness for C4 at a concrete instance: threshold 2, failures at times 5
and 7, probing at times 8 (too early) and 30010 (past the 30000 ms timeout). -/
theorem c4_witness :
    foldFailures ⟨true, 2, 2, 30000⟩ none ([5] ++ [7]) =
      some (setStatus ⟨true, 2, 2, 30000⟩
        { state := .OPEN, failures := 2, successes := 0,
          lastFailureTime := some 7, lastStateChange := 7 }) ∧
    ((8 : Int) - 7 < ((30000 : Nat) : Int) →
      canExecute (foldFailures ⟨true, 2, 2, 30000⟩ none ([5] ++ [7]))
          ⟨true, 2, 2, 30000⟩ 8 =
        (false, foldFailures ⟨true, 2, 2, 30000⟩ none ([5] ++ [7]), [])) := by
  have h := c4_failure_threshold_opens_then_half_open
    ⟨true, 2, 2, 30000⟩ 2 [5] 7 8 rfl rfl rfl
  exact ⟨h.1, h.2.1⟩

/-- C5: in HALF_OPEN, any `recordFailure()` writes the OPEN status regardless
of accumulated successes, and `recordSuccess()` increments `successes`,
transitioning to CLOSED with cleared counters and preserved `lastFailureTime`
exactly when the incremented count reaches `successThreshold`. -/
theorem c5_half_open_success_failure (cfg : CircuitBreakerConfig)
    (e : CacheEntry) (now : Int)
    (hen : cfg.enabled = true) (hst : e.status.state = .HALF_OPEN) :
    recordFailure (some e) cfg now =
      (some (setStatus cfg
        { state := .OPEN, failures := e.status.failures + 1, successes := 0,
          lastFailureTime := some now, lastStateChange := now }),
       [setStatus cfg
        { state := .OPEN, failures := e.status.failures + 1, successes := 0,
          lastFailureTime := some now, lastStateChange := now }]) ∧
    (cfg.successThreshold ≤ e.status.successes + 1 →
      recordSuccess (some e) cfg now =
        (some (setStatus cfg
          { state := .CLOSED, failures := 0, successes := 0,
            lastFailureTime := e.status.lastFailureTime,
            lastStateChange := now }),
         [setStatus cfg
          { state := .CLOSED, failures := 0, successes := 0,
            lastFailureTime := e.status.lastFailureTime,
            lastStateChange := now }])) ∧
    (e.status.successes + 1 < cfg.successThreshold →
      recordSuccess (some e) cfg now =
        (some (setStatus cfg
           { e.status with successes := e.status.successes + 1 }),
         [setStatus cfg
           { e.status with successes := e.status.successes + 1 }])) := by
  refine ⟨?_, ?_, ?_⟩
  · simp only [recordFailure, getStatus, hen, Bool.not_true,
      Option.map_some', Option.getD_some]
    rw [if_neg (by simp), if_pos hst]
  · intro hle
    simp only [recordSuccess, getStatus, hen, Bool.not_true,
      Option.map_some', Option.getD_some]
    rw [if_neg (by simp), if_pos hst, if_pos hle]
  · intro hlt
    simp only [recordSuccess, getStatus, hen, Bool.not_true,
      Option.map_some', Option.getD_some]
    rw [if_neg (by simp), if_pos hst, if_neg (by omega)]

/-- Witness for C5: a HALF_OPEN status with 3 failures and 1 prior success,
`successThreshold = 2`, so the next success closes the breaker. -/
theorem c5_witness :
    recordFailure (some ⟨⟨.HALF_OPEN, 3, 1, some 40, 50⟩, 90⟩)
        ⟨true, 5, 2, 30000⟩ 60 =
      (some (setStatus ⟨true, 5, 2, 30000⟩
        { state := .OPEN, failures := 3 + 1, successes := 0,
          lastFailureTime := some 60, lastStateChange := 60 }),
       [setStatus ⟨true, 5, 2, 30000⟩
        { state := .OPEN, failures := 3 + 1, successes := 0,
          lastFailureTime := some 60, lastStateChange := 60 }]) ∧
    ((2 : Nat) ≤ 1 + 1 →
      recordSuccess (some ⟨⟨.HALF_OPEN, 3, 1, some 40, 50⟩, 90⟩)
          ⟨true, 5, 2, 30000⟩ 60 =
        (some (setStatus ⟨true, 5, 2, 30000⟩
          { state := .CLOSED, failures := 0, successes := 0,
            lastFailureTime := some 40, lastStateChange := 60 }),
         [setStatus ⟨true, 5, 2, 30000⟩
          { state := .CLOSED, failures := 0, successes := 0,
            lastFailureTime := some 40, lastStateChange := 60 }])) := by
  have h := c5_half_open_success_failure ⟨true, 5, 2, 30000⟩
    ⟨⟨.HALF_OPEN, 3, 1, some 40, 50⟩, 90⟩ 60 rfl rfl
  exact ⟨h.1, h.2.1⟩

/-- C10: when the stored state is OPEN, neither `recordSuccess()` nor
`recordFailure()` performs a cache write — the stored fields and the TTL are
untouched; only `canExecute()` moves a breaker out of OPEN. -/
theorem c10_open_is_frame_for_records (cfg : CircuitBreakerConfig)
    (e : CacheEntry) (now : Int) (hst : e.status.state = .OPEN) :
    recordSuccess (some e) cfg now = (some e, []) ∧
    recordFailure (some e) cfg now = (some e, []) := by
  by_cases hen : cfg.enabled
  · constructor
    · simp only [recordSuccess, getStatus, hen, Bool.not_true,
        Option.map_some', Option.getD_some]
      simp [hst]
    · simp only [recordFailure, getStatus, hen, Bool.not_true,
        Option.map_some', Option.getD_some]
      simp [hst]
  · simp only [Bool.not_eq_true] at hen
    constructor
    · simp [recordSuccess, hen]
    · simp [recordFailure, hen]

/-- Witness for C10 at a concrete OPEN entry. -/
theorem c10_witness :
    recordSuccess (some ⟨⟨.OPEN, 5, 0, some 40, 50⟩, 90⟩)
        ⟨true, 5, 2, 30000⟩ 60 =
      (some ⟨⟨.OPEN, 5, 0, some 40, 50⟩, 90⟩, []) ∧
    recordFailure (some ⟨⟨.OPEN, 5, 0, some 40, 50⟩, 90⟩)
        ⟨true, 5, 2, 30000⟩ 60 =
      (some ⟨⟨.OPEN, 5, 0, some 40, 50⟩, 90⟩, []) :=
  c10_open_is_frame_for_records ⟨true, 5, 2, 30000⟩
    ⟨⟨.OPEN, 5, 0, some 40, 50⟩, 90⟩ 60 rfl

/-! ## Sliding-window rate limiter (src/shared/rate-limiter/index.ts)

The Redis sorted set under the `ratelimit:` key is modelled as a list of
`(member, score)` pairs; `ZADD` updates the score of an existing member and
appends a fresh one, `ZREMRANGEBYSCORE` removes every member whose score
falls in the (inclusive) range, `ZCARD` is the length.  `Date.now()` and the
`Math.random()` nonce are explicit parameters. -/

/-- A Redis sorted set: `(member, score)` pairs. -/
abbrev ZSet := List (String × Int)

/-- `ZREMRANGEBYSCORE key lo hi` (both bounds inclusive). -/
def zremrangebyscore (s : ZSet) (lo hi : Int) : ZSet :=
  s.filter (fun e => !(lo ≤ e.2 && e.2 ≤ hi))

/-- `ZADD key score member`. -/
def zadd (s : ZSet) (score : Int) (member : String) : ZSet :=
  if s.any (fun e => e.1 == member) then
    s.map (fun e => if e.1 == member then (member, score) else e)
  else s ++ [(member, score)]

/-- `ZCARD key`. -/
def zcard (s : ZSet) : Nat := s.length

/-- Score of the oldest entry (`ZRANGE key 0 0 WITHSCORES`): the minimal
score present, if any. -/
def zminScore (s : ZSet) : Option Int :=
  s.foldr (fun e acc =>
    match acc with
    | none => some e.2
    | some m => some (min e.2 m)) none

/-- `RateLimitConfig`: `requestsPerSecond` with optional `burstSize`. -/
structure RateLimitConfig where
  requestsPerSecond : Nat
  burstSize : Option Nat
  deriving DecidableEq, Repr

/-- `RateLimitResult` returned by `checkRateLimit`. -/
structure RateLimitResult where
  allowed : Bool
  remaining : Nat
  resetAt : Int
  limit : Nat
  deriving DecidableEq, Repr

/-- `checkRateLimit(key, config)`: the fixed 1000 ms sliding window.  `now`
is `Date.now()`, `nonce` the `Math.random()` suffix of the added member.
Returns the result together with the sorted set left in Redis. -/
def checkRateLimit (state : ZSet) (now : Int) (nonce : String)
    (config : RateLimitConfig) : RateLimitResult × ZSet :=
  let windowMs : Int := 1000
  let windowStart := now - windowMs
  let limit := config.burstSize.getD config.requestsPerSecond
  let s1 := zremrangebyscore state 0 windowStart
  let currentCount := zcard s1
  let s2 := zadd s1 now (toString now ++ ":" ++ nonce)
  let allowed := decide (currentCount < limit)
  let remaining := limit - currentCount - 1
  let oldest := (zminScore s2).getD now
  let resetAt := oldest + windowMs
  let s3 := if allowed then s2 else zremrangebyscore s2 now (now + 1)
  ({ allowed := allowed, remaining := remaining, resetAt := resetAt,
     limit := limit }, s3)

/-- C2 counterexample.  Key with `limit = 1` already holding the member
`"100:a"` at score 100; a second check at `now = 100` is denied, and the
post-denial `ZREMRANGEBYSCORE key now now+1` removes the *pre-existing*
member `"100:a"` as well — contradicting the claim that every member other
than the just-added one remains. -/
theorem c2_counterexample :
    (checkRateLimit [("100:a", 100)] 100 "b" ⟨1, none⟩).1.allowed = false ∧
    (checkRateLimit [("100:a", 100)] 100 "b" ⟨1, none⟩).2 = [] ∧
    ("100:a", (100 : Int)) ∉ (checkRateLimit [("100:a", 100)] 100 "b"
      ⟨1, none⟩).2 := by
  refine ⟨rfl, rfl, ?_⟩
  intro h
  simp [checkRateLimit, zadd, zremrangebyscore, zcard, zminScore] at h

/-- C2 amended: with `limit = burstSize ?? requestsPerSecond` and
`currentCount` the number of entries remaining in the 1000 ms window after
eviction and before the candidate is added — if `currentCount < limit` the
call returns `allowed = true` with `remaining = max(0, limit - currentCount
- 1)` and leaves the candidate recorded; if `currentCount ≥ limit` it
returns `allowed = false` and the final set holds exactly those members of
the post-insertion set whose score lies outside `[now, now+1]` — in
particular the just-added member (score `now`) is removed, but so is any
other member whose score falls in that range; members with scores outside
it remain. -/
theorem c2_rate_limit_amended (state : ZSet) (now : Int) (nonce : String)
    (config : RateLimitConfig) :
    (checkRateLimit state now nonce config).1.limit =
      config.burstSize.getD config.requestsPerSecond ∧
    ((zremrangebyscore state 0 (now - 1000)).length <
        config.burstSize.getD config.requestsPerSecond →
      (checkRateLimit state now nonce config).1.allowed = true ∧
      (checkRateLimit state now nonce config).1.remaining =
        config.burstSize.getD config.requestsPerSecond -
          (zremrangebyscore state 0 (now - 1000)).length - 1 ∧
      (checkRateLimit state now nonce config).2 =
        zadd (zremrangebyscore state 0 (now - 1000)) now
          (toString now ++ ":" ++ nonce)) ∧
    (config.burstSize.getD config.requestsPerSecond ≤
        (zremrangebyscore state 0 (now - 1000)).length →
      (checkRateLimit state now nonce config).1.allowed = false ∧
      (∀ e ∈ zadd (zremrangebyscore state 0 (now - 1000)) now
          (toString now ++ ":" ++ nonce),
        (e.2 < now ∨ now + 1 < e.2) →
          e ∈ (checkRateLimit state now nonce config).2) ∧
      (∀ e ∈ (checkRateLimit state now nonce config).2,
        e ∈ zadd (zremrangebyscore state 0 (now - 1000)) now
          (toString now ++ ":" ++ nonce) ∧
        (e.2 < now ∨ now + 1 < e.2))) := by
  refine ⟨rfl, ?_, ?_⟩
  · intro hlt
    refine ⟨?_, ?_, ?_⟩
    · simp [checkRateLimit, zcard, hlt]
    · rfl
    · simp [checkRateLimit, zcard, hlt]
  · intro hge
    have hnot : ¬((zremrangebyscore state 0 (now - 1000)).length <
        config.burstSize.getD config.requestsPerSecond) := by omega
    have hfinal : (checkRateLimit state now nonce config).2 =
        zremrangebyscore (zadd (zremrangebyscore state 0 (now - 1000)) now
          (toString now ++ ":" ++ nonce)) now (now + 1) := by
      simp [checkRateLimit, zcard, hnot]
    refine ⟨?_, ?_, ?_⟩
    · simp [checkRateLimit, zcard, hnot]
    · intro e hmem hout
      rw [hfinal]
      simp only [zremrangebyscore, List.mem_filter]
      refine ⟨hmem, ?_⟩
      rcases hout with h | h
      · have hna : ¬(now ≤ e.2) := by omega
        simp [hna]
      · have hnb : ¬(e.2 ≤ now + 1) := by omega
        simp [hnb]
    · intro e hmem
      rw [hfinal] at hmem
      simp only [zremrangebyscore, List.mem_filter] at hmem
      obtain ⟨hin, hcond⟩ := hmem
      refine ⟨hin, ?_⟩
      by_contra hq
      push_neg at hq
      simp [hq.1, hq.2] at hcond

/-- Witness for C2 amended: an allowed call (empty set, limit 2) and a denied
call (set already at the limit). -/
theorem c2_witness :
    (([] : ZSet).length < (2 : Nat) →
      (checkRateLimit [] 100 "a" ⟨2, none⟩).1.allowed = true) ∧
    ((1 : Nat) ≤ 1 →
      (checkRateLimit [("600:z", 600)] 1200 "b" ⟨1, none⟩).1.allowed =
        false) := by
  constructor
  · intro h
    have hmain := c2_rate_limit_amended [] 100 "a" ⟨2, none⟩
    exact (hmain.2.1 (by decide)).1
  · intro _
    have hmain := c2_rate_limit_amended [("600:z", 600)] 1200 "b" ⟨1, none⟩
    exact (hmain.2.2 (by decide)).1

/-! ## Load balancer (src/shared/load-balancer/index.ts)

`Math.random()` is an explicit rational parameter in `[0, 1)`; the
process-local `roundRobinCounters` map is a function `String → Option Nat`
threaded through each call.  JavaScript numbers (weights, random draws) are
exact rationals here. -/

/-- `UpstreamConfig`: url, optional weight, optional timeout (ms). -/
structure UpstreamConfig where
  url : String
  weight : Option ℚ
  timeout : Option Nat
  deriving DecidableEq, Repr

instance : Inhabited UpstreamConfig := ⟨⟨"", none, none⟩⟩

/-- `LoadBalancingStrategy`. -/
inductive LoadBalancing where
  | roundRobin
  | weighted
  | random
  deriving DecidableEq, Repr

/-- The per-route round-robin cursor map (`roundRobinCounters`). -/
abbrev RRState := String → Option Nat

/-- `selectRoundRobin(upstreams, routeId)`: read the cursor (default 0),
pick `upstreams[cursor % n]`, store `cursor + 1`.  `none` models the
out-of-range access the source's non-null assertion would hide. -/
def selectRoundRobin (upstreams : List UpstreamConfig) (routeId : String)
    (counters : RRState) : Option (UpstreamConfig × RRState) :=
  let currentIndex := (counters routeId).getD 0
  match upstreams.get? (currentIndex % upstreams.length) with
  | some u => some (u, fun key =>
      if key = routeId then some (currentIndex + 1) else counters key)
  | none => none

/-- An upstream's effective weight (`upstream.weight ?? 1`). -/
def weightOf (u : UpstreamConfig) : ℚ := u.weight.getD 1

/-- `totalWeight`: the `reduce` over `weight ?? 1` with initial value 0. -/
def totalWeight (upstreams : List UpstreamConfig) : ℚ :=
  upstreams.foldl (fun sum u => sum + weightOf u) 0

/-- The `for`-walk inside `selectWeighted`: subtract each weight from the
running `random`; return the upstream at which it becomes `≤ 0`, or `none`
if the walk completes without triggering. -/
def selectWeightedGo : ℚ → List UpstreamConfig → Option UpstreamConfig
  | _, [] => none
  | r, u :: rest =>
      let r2 := r - weightOf u
      if r2 ≤ 0 then some u else selectWeightedGo r2 rest

/-- `selectWeighted(upstreams)` with `Math.random() = rand`: walk with
`rand * totalWeight`; the fall-through after the loop returns
`upstreams[0]` — the *first* upstream. -/
def selectWeighted (rand : ℚ) (upstreams : List UpstreamConfig) :
    Option UpstreamConfig :=
  match selectWeightedGo (rand * totalWeight upstreams) upstreams with
  | some u => some u
  | none => upstreams.head?

/-- `selectRandom(upstreams)` with `Math.random() = rand`:
`upstreams[Math.floor(rand * n)]`. -/
def selectRandom (rand : ℚ) (upstreams : List UpstreamConfig) :
    Option UpstreamConfig :=
  upstreams.get? (Int.toNat ⌊rand * (upstreams.length : ℚ)⌋)

/-- `selectUpstream(upstreams, strategy, routeId)`: `none` models the
`No upstreams available` throw; a single upstream is returned untouched;
otherwise dispatch on the strategy.  Strategies that do not use the cursor
leave `counters` unchanged. -/
def selectUpstream (upstreams : List UpstreamConfig)
    (strategy : LoadBalancing) (routeId : String) (rand : ℚ)
    (counters : RRState) : Option (UpstreamConfig × RRState) :=
  match upstreams with
  | [] => none
  | [u] => some (u, counters)
  | _ =>
      match strategy with
      | .roundRobin => selectRoundRobin upstreams routeId counters
      | .weighted => (selectWeighted rand upstreams).map (fun u => (u, counters))
      | .random => (selectRandom rand upstreams).map (fun u => (u, counters))

/-- Sum of the first `m` effective weights. -/
def psumTo (upstreams : List UpstreamConfig) (m : Nat) : ℚ :=
  ((upstreams.take m).map weightOf).sum

theorem psumTo_cons (u : UpstreamConfig) (rest : List UpstreamConfig)
    (m : Nat) : psumTo (u :: rest) (m + 1) = weightOf u + psumTo rest m := by
  simp [psumTo]

theorem totalWeight_eq_sum (upstreams : List UpstreamConfig) :
    totalWeight upstreams = (upstreams.map weightOf).sum := by
  have haux : ∀ (l : List UpstreamConfig) (a : ℚ),
      l.foldl (fun sum u => sum + weightOf u) a = a + (l.map weightOf).sum := by
    intro l
    induction l with
    | nil => intro a; simp
    | cons u rest ih =>
        intro a
        simp only [List.foldl_cons, List.map_cons, List.sum_cons]
        rw [ih (a + weightOf u)]
        ring
  simpa using haux upstreams 0

theorem totalWeight_eq_psum (upstreams : List UpstreamConfig) :
    totalWeight upstreams = psumTo upstreams upstreams.length := by
  rw [totalWeight_eq_sum]
  simp [psumTo]

/-- Walk characterization: a hit returns the first upstream whose weight
prefix-sum reaches the draw, a miss means no prefix-sum reaches it. -/
theorem selectWeightedGo_spec :
    ∀ (upstreams : List UpstreamConfig) (r : ℚ),
      (∀ u, selectWeightedGo r upstreams = some u →
        ∃ i, ∃ hi : i < upstreams.length, u = upstreams.get ⟨i, hi⟩ ∧
          r ≤ psumTo upstreams (i + 1) ∧
          ∀ j < i, psumTo upstreams (j + 1) < r) ∧
      (selectWeightedGo r upstreams = none →
        ∀ j < upstreams.length, psumTo upstreams (j + 1) < r) := by
  intro upstreams
  induction upstreams with
  | nil =>
      intro r
      exact ⟨fun u h => by simp [selectWeightedGo] at h,
        fun _ j hj => by simp at hj⟩
  | cons u0 rest ih =>
      intro r
      by_cases hhit : r - weightOf u0 ≤ 0
      · constructor
        · intro u hu
          simp only [selectWeightedGo, hhit, if_true] at hu
          obtain rfl := Option.some.inj hu
          refine ⟨0, by simp, rfl, ?_, ?_⟩
          · rw [psumTo_cons]
            have h0 : psumTo rest 0 = 0 := by simp [psumTo]
            rw [h0]
            linarith
          · intro j hj; omega
        · intro hnone
          simp [selectWeightedGo, hhit] at hnone
      · have hrec : selectWeightedGo r (u0 :: rest) =
            selectWeightedGo (r - weightOf u0) rest := by
          simp [selectWeightedGo, hhit]
        have hw : weightOf u0 < r := by linarith [not_le.mp hhit]
        constructor
        · intro u hu
          rw [hrec] at hu
          obtain ⟨i, hi, hget, hle, hfirst⟩ := (ih (r - weightOf u0)).1 u hu
          refine ⟨i + 1, by simpa using Nat.succ_lt_succ hi, by simpa using hget,
            ?_, ?_⟩
          · rw [psumTo_cons]; linarith
          · intro j hj
            match j with
            | 0 =>
                rw [psumTo_cons]
                have h0 : psumTo rest 0 = 0 := by simp [psumTo]
                rw [h0]
                linarith
            | Nat.succ j0 =>
                rw [psumTo_cons]
                have := hfirst j0 (by omega)
                linarith
        · intro hnone
          rw [hrec] at hnone
          have hrest := (ih (r - weightOf u0)).2 hnone
          intro j hj
          match j with
          | 0 =>
              rw [psumTo_cons]
              have h0 : psumTo rest 0 = 0 := by simp [psumTo]
              rw [h0]
              linarith
          | Nat.succ j0 =>
              rw [psumTo_cons]
              have := hrest j0 (by simpa using hj)
              linarith

/-- C7 counterexample.  Two distinct upstreams of weight 1 each; a draw that
completes the walk untriggered makes `selectWeighted` fall back to the
*first* upstream, not the last one the claim promises.  (With exact
arithmetic the walk always triggers for draws in `[0, W)`; the fall-through
branch the claim describes returns `upstreams[0]`.) -/
theorem c7_counterexample :
    selectWeightedGo
        ((2 : ℚ) * totalWeight [⟨"http://a", some 1, none⟩,
          ⟨"http://b", some 1, none⟩])
        [⟨"http://a", some 1, none⟩, ⟨"http://b", some 1, none⟩] = none ∧
    selectWeighted 2 [⟨"http://a", some 1, none⟩, ⟨"http://b", some 1, none⟩] =
      some ⟨"http://a", some 1, none⟩ ∧
    ([⟨"http://a", some 1, none⟩, ⟨"http://b", some 1, none⟩] :
        List UpstreamConfig).getLast? = some ⟨"http://b", some 1, none⟩ ∧
    (⟨"http://a", some 1, none⟩ : UpstreamConfig) ≠
      ⟨"http://b", some 1, none⟩ := by
  have hgo : selectWeightedGo
      ((2 : ℚ) * totalWeight [⟨"http://a", some 1, none⟩,
        ⟨"http://b", some 1, none⟩])
      [⟨"http://a", some 1, none⟩, ⟨"http://b", some 1, none⟩] = none := by
    norm_num [selectWeightedGo, totalWeight, weightOf]
  refine ⟨hgo, ?_, rfl, ?_⟩
  · simp only [selectWeighted, hgo]
    rfl
  · intro h
    injection h with h1 _ _
    exact absurd h1 (by decide)

/-- C7 amended: for every non-empty upstream list with positive total weight
`W` and a draw `rand ∈ [0, 1)` (so `r = rand·W ∈ [0, W)`), the weighted walk
returns the first upstream at which the running remainder becomes `≤ 0`
(equivalently, the first whose weight prefix-sum reaches `r`); the
fall-through when the walk completes untriggered — unreachable for
`r ∈ [0, W)` in exact arithmetic — returns the *first* upstream of the
list, not the last. -/
theorem c7_weighted_selection (upstreams : List UpstreamConfig) (rand : ℚ)
    (h0 : 0 ≤ rand) (h1 : rand < 1) (hW : 0 < totalWeight upstreams) :
    (∃ i, ∃ hi : i < upstreams.length,
      selectWeighted rand upstreams = some (upstreams.get ⟨i, hi⟩) ∧
      rand * totalWeight upstreams ≤ psumTo upstreams (i + 1) ∧
      ∀ j < i, psumTo upstreams (j + 1) < rand * totalWeight upstreams) ∧
    (∀ rand2 : ℚ,
      selectWeightedGo (rand2 * totalWeight upstreams) upstreams = none →
      selectWeighted rand2 upstreams = upstreams.head?) := by
  have hne : upstreams ≠ [] := by
    intro h
    rw [h] at hW
    simp [totalWeight] at hW
  have hlen : 0 < upstreams.length := List.length_pos.mpr hne
  have hrW : rand * totalWeight upstreams < totalWeight upstreams := by
    calc rand * totalWeight upstreams < 1 * totalWeight upstreams :=
          mul_lt_mul_of_pos_right h1 hW
      _ = totalWeight upstreams := one_mul _
  constructor
  · rcases hgo : selectWeightedGo (rand * totalWeight upstreams) upstreams with
      _ | u
    · exfalso
      have hall := (selectWeightedGo_spec upstreams
        (rand * totalWeight upstreams)).2 hgo
      have hlast := hall (upstreams.length - 1) (by omega)
      have hfull : upstreams.length - 1 + 1 = upstreams.length := by omega
      rw [hfull, ← totalWeight_eq_psum] at hlast
      linarith
    · obtain ⟨i, hi, hget, hle, hfirst⟩ := (selectWeightedGo_spec upstreams
        (rand * totalWeight upstreams)).1 u hgo
      refine ⟨i, hi, ?_, hle, hfirst⟩
      rw [selectWeighted, hgo, hget]
  · intro rand2 hnone
    rw [selectWeighted, hnone]

/-- Witness for C7 amended: weights 1 and 3, draw 1/2, so `r = 2` and the
walk stops at the second upstream. -/
theorem c7_witness :
    (0 : ℚ) ≤ 1/2 ∧ (1/2 : ℚ) < 1 ∧
    (0 : ℚ) < totalWeight [⟨"http://a", some 1, none⟩,
      ⟨"http://b", some 3, none⟩] ∧
    ∃ i, ∃ hi : i < ([⟨"http://a", some 1, none⟩,
        ⟨"http://b", some 3, none⟩] : List UpstreamConfig).length,
      selectWeighted (1/2) [⟨"http://a", some 1, none⟩,
          ⟨"http://b", some 3, none⟩] =
        some (([⟨"http://a", some 1, none⟩,
          ⟨"http://b", some 3, none⟩] : List UpstreamConfig).get ⟨i, hi⟩) := by
  refine ⟨by norm_num, by norm_num,
    by norm_num [totalWeight, weightOf], ?_⟩
  obtain ⟨i, hi, hsel, -, -⟩ := (c7_weighted_selection
    [⟨"http://a", some 1, none⟩, ⟨"http://b", some 3, none⟩] (1/2)
    (by norm_num) (by norm_num) (by norm_num [totalWeight, weightOf])).1
  exact ⟨i, hi, hsel⟩

/-- Repeated `selectUpstream` invocations with the round-robin strategy for
one route, threading the cursor map; `Math.random()` is unused by this
strategy and fixed to 0. -/
def runRoundRobin (upstreams : List UpstreamConfig) (routeId : String) :
    Nat → RRState → List UpstreamConfig × RRState
  | 0, counters => ([], counters)
  | m + 1, counters =>
      match selectUpstream upstreams .roundRobin routeId 0 counters with
      | some (u, counters2) =>
          let rest := runRoundRobin upstreams routeId m counters2
          (u :: rest.1, rest.2)
      | none => ([], counters)

theorem runRoundRobin_single (u : UpstreamConfig) (routeId : String) :
    ∀ (m : Nat) (counters : RRState),
      runRoundRobin [u] routeId m counters = (List.replicate m u, counters) := by
  intro m
  induction m with
  | zero => intro counters; rfl
  | succ m ih =>
      intro counters
      simp [runRoundRobin, selectUpstream, ih, List.replicate]

/-- The cursor-map update performed by one round-robin selection. -/
def rrBump (routeId : String) (counters : RRState) : RRState :=
  fun key => if key = routeId
    then some ((counters routeId).getD 0 + 1) else counters key

theorem selectUpstream_rr_cons2 (u1 u2 : UpstreamConfig)
    (rest : List UpstreamConfig) (routeId : String) (counters : RRState) :
    selectUpstream (u1 :: u2 :: rest) .roundRobin routeId 0 counters =
      some ((u1 :: u2 :: rest).getI
        (((counters routeId).getD 0) % (u1 :: u2 :: rest).length),
        rrBump routeId counters) := by
  have hn : 0 < (u1 :: u2 :: rest).length := by simp
  have hidx : ((counters routeId).getD 0) % (u1 :: u2 :: rest).length <
      (u1 :: u2 :: rest).length := Nat.mod_lt _ hn
  simp only [selectUpstream, selectRoundRobin]
  rw [List.get?_eq_get hidx, List.getI_eq_getElem _ hidx]
  rfl

theorem runRoundRobin_cons2_step (u1 u2 : UpstreamConfig)
    (rest : List UpstreamConfig) (routeId : String) (m : Nat)
    (counters : RRState) :
    runRoundRobin (u1 :: u2 :: rest) routeId (m + 1) counters =
      ((u1 :: u2 :: rest).getI
          (((counters routeId).getD 0) % (u1 :: u2 :: rest).length) ::
        (runRoundRobin (u1 :: u2 :: rest) routeId m
          (rrBump routeId counters)).1,
       (runRoundRobin (u1 :: u2 :: rest) routeId m
          (rrBump routeId counters)).2) := by
  simp only [runRoundRobin, selectUpstream_rr_cons2]

theorem runRoundRobin_formula (u1 u2 : UpstreamConfig)
    (rest : List UpstreamConfig) (routeId : String) :
    ∀ (m : Nat) (counters : RRState),
      ((runRoundRobin (u1 :: u2 :: rest) routeId m counters).1 =
        (List.range m).map (fun j =>
          (u1 :: u2 :: rest).getI
            (((counters routeId).getD 0 + j) % (u1 :: u2 :: rest).length))) ∧
      (∀ key, key ≠ routeId →
        (runRoundRobin (u1 :: u2 :: rest) routeId m counters).2 key =
          counters key) := by
  intro m
  induction m with
  | zero => intro counters; exact ⟨by simp [runRoundRobin], fun _ _ => rfl⟩
  | succ m ih =>
      intro counters
      obtain ⟨ihList, ihFrame⟩ := ih (rrBump routeId counters)
      have hc2 : ((rrBump routeId counters) routeId).getD 0 =
          (counters routeId).getD 0 + 1 := by simp [rrBump]
      rw [hc2] at ihList
      constructor
      · rw [runRoundRobin_cons2_step]
        dsimp only
        rw [ihList, List.range_succ_eq_map, List.map_cons, List.map_map]
        congr 1
        apply List.map_congr_left
        intro j hj
        simp only [Function.comp_apply, Nat.succ_eq_add_one]
        have harg : (counters routeId).getD 0 + 1 + j =
            (counters routeId).getD 0 + (j + 1) := by omega
        rw [harg]
      · intro key hkey
        rw [runRoundRobin_cons2_step]
        calc (runRoundRobin (u1 :: u2 :: rest) routeId m
                (rrBump routeId counters)).2 key
            = (rrBump routeId counters) key := ihFrame key hkey
          _ = counters key := by simp [rrBump, hkey]

theorem residue_hit (n c i : Nat) (hn : 0 < n) (hi : i < n) :
    (c + (i + n - c % n) % n) % n = i := by
  have ha : c % n < n := Nat.mod_lt _ hn
  rw [Nat.add_mod, Nat.mod_mod_of_dvd _ dvd_rfl]
  by_cases hca : c % n ≤ i
  · have h1 : i + n - c % n = (i - c % n) + n := by omega
    rw [h1, Nat.add_mod_right,
      Nat.mod_eq_of_lt (show i - c % n < n by omega)]
    have h2 : c % n + (i - c % n) = i := by omega
    rw [h2, Nat.mod_eq_of_lt hi]
  · have h1 : (i + n - c % n) % n = i + n - c % n :=
      Nat.mod_eq_of_lt (show i + n - c % n < n by omega)
    rw [h1]
    have h2 : c % n + (i + n - c % n) = i + n := by omega
    rw [h2, Nat.add_mod_right, Nat.mod_eq_of_lt hi]

theorem residue_unique (n c : Nat) (hn : 0 < n) :
    ∀ j1 j2, j1 < n → j2 < n → (c + j1) % n = (c + j2) % n → j1 = j2 := by
  intro j1 j2 h1 h2 heq
  have hmod : j1 ≡ j2 [MOD n] := Nat.ModEq.add_left_cancel' c heq
  have : j1 % n = j2 % n := hmod
  rwa [Nat.mod_eq_of_lt h1, Nat.mod_eq_of_lt h2] at this

theorem countP_residue_block (n c i : Nat) (hn : 0 < n) (hi : i < n) :
    (List.range n).countP (fun j => decide ((c + j) % n = i)) = 1 := by
  have hkey : (c + (i + n - c % n) % n) % n = i := residue_hit n c i hn hi
  have hj0 : (i + n - c % n) % n < n := Nat.mod_lt _ hn
  have hpt : ∀ j ∈ List.range n,
      (decide ((c + j) % n = i)) = (j == (i + n - c % n) % n) := by
    intro j hj
    rw [List.mem_range] at hj
    by_cases h : (c + j) % n = i
    · have hjj : j = (i + n - c % n) % n := by
        apply residue_unique n c hn j _ hj hj0
        rw [hkey, h]
      subst hjj
      rw [hkey]
      simp
    · have hjj : j ≠ (i + n - c % n) % n := by
        intro he
        exact h (by rw [he, hkey])
      simp [h, hjj]
  calc (List.range n).countP (fun j => decide ((c + j) % n = i))
      = (List.range n).countP (fun j => j == (i + n - c % n) % n) :=
        List.countP_congr (fun x hx => by rw [hpt x hx])
    _ = (List.range n).count ((i + n - c % n) % n) :=
        (List.count_eq_countP _ _).symm
    _ = 1 := List.count_eq_one_of_mem (List.nodup_range n)
        (List.mem_range.mpr hj0)

theorem countP_residue_range (n i : Nat) (hn : 0 < n) (hi : i < n) :
    ∀ (k c : Nat),
      (List.range (k * n)).countP (fun j => decide ((c + j) % n = i)) = k := by
  intro k
  induction k with
  | zero => intro c; simp
  | succ k ih =>
      intro c
      have hsplit : (k + 1) * n = k * n + n := by ring
      rw [hsplit, List.range_add, List.countP_append, ih c, List.countP_map]
      have hblock :
          (List.range n).countP
            ((fun j => decide ((c + j) % n = i)) ∘ (fun j => k * n + j)) =
          (List.range n).countP (fun j => decide ((c + k * n + j) % n = i)) := by
        apply List.countP_congr
        intro j _
        simp only [Function.comp_apply]
        have harg : c + (k * n + j) = c + k * n + j := by omega
        rw [harg]
      rw [hblock, countP_residue_block n (c + k * n) i hn hi]

/-- C8: under the round-robin strategy, over `k·n` consecutive
`selectUpstream` invocations for one route with `n` (pairwise distinct)
upstreams, each upstream is selected exactly `k` times, and the cursor map
entry of every other route is left unchanged. -/
theorem c8_round_robin_fairness (upstreams : List UpstreamConfig)
    (routeId other : String) (k : Nat) (counters : RRState)
    (hne : upstreams ≠ []) (hnd : upstreams.Nodup) (hother : other ≠ routeId) :
    (∀ u ∈ upstreams,
      (runRoundRobin upstreams routeId (k * upstreams.length) counters).1.count
        u = k) ∧
    (runRoundRobin upstreams routeId (k * upstreams.length) counters).2 other =
      counters other := by
  match upstreams, hne with
  | [u1], _ =>
      have hlen1 : [u1].length = 1 := rfl
      constructor
      · intro u hu
        have hu1 : u = u1 := by simpa using hu
        rw [hlen1, runRoundRobin_single u1 routeId (k * 1) counters]
        simp [hu1]
      · rw [hlen1, runRoundRobin_single u1 routeId (k * 1) counters]
  | u1 :: u2 :: rest, _ =>
      obtain ⟨hlist, hframe⟩ :=
        runRoundRobin_formula u1 u2 rest routeId
          (k * (u1 :: u2 :: rest).length) counters
      have hn : 0 < (u1 :: u2 :: rest).length := by simp
      constructor
      · intro u hu
        obtain ⟨⟨i, hi⟩, hget⟩ := List.mem_iff_get.mp hu
        rw [List.get_eq_getElem] at hget
        rw [hlist, List.count_eq_countP, List.countP_map]
        have hpt : ∀ j ∈ List.range (k * (u1 :: u2 :: rest).length),
            (((· == u) ∘ fun j => (u1 :: u2 :: rest).getI
              (((counters routeId).getD 0 + j) %
                (u1 :: u2 :: rest).length)) j) =
            decide ((((counters routeId).getD 0 + j) %
              (u1 :: u2 :: rest).length) = i) := by
          intro j _
          simp only [Function.comp_apply]
          have hjlt : ((counters routeId).getD 0 + j) %
              (u1 :: u2 :: rest).length < (u1 :: u2 :: rest).length :=
            Nat.mod_lt _ hn
          by_cases h : (((counters routeId).getD 0 + j) %
              (u1 :: u2 :: rest).length) = i
          · have hval : (u1 :: u2 :: rest).getI
                (((counters routeId).getD 0 + j) %
                  (u1 :: u2 :: rest).length) = u := by
              rw [List.getI_eq_getElem _ hjlt]
              simp only [h]
              exact hget
            have hb1 : ((u1 :: u2 :: rest).getI
                (((counters routeId).getD 0 + j) %
                  (u1 :: u2 :: rest).length) == u) = true := by
              rw [beq_iff_eq]; exact hval
            have hb2 : decide ((((counters routeId).getD 0 + j) %
                (u1 :: u2 :: rest).length) = i) = true := by
              rw [decide_eq_true_eq]; exact h
            rw [hb1, hb2]
          · have hneq : (u1 :: u2 :: rest).getI
                (((counters routeId).getD 0 + j) %
                  (u1 :: u2 :: rest).length) ≠ u := by
              rw [List.getI_eq_getElem _ hjlt]
              intro he
              apply h
              have h2 : (u1 :: u2 :: rest).get ⟨((counters routeId).getD 0
                  + j) % (u1 :: u2 :: rest).length, hjlt⟩ =
                  (u1 :: u2 :: rest).get ⟨i, hi⟩ := by
                rw [List.get_eq_getElem, List.get_eq_getElem]
                exact he.trans hget.symm
              exact congrArg Fin.val (hnd.get_inj_iff.mp h2)
            have hb1 : ((u1 :: u2 :: rest).getI
                (((counters routeId).getD 0 + j) %
                  (u1 :: u2 :: rest).length) == u) = false := by
              rw [beq_eq_false_iff_ne]; exact hneq
            have hb2 : decide ((((counters routeId).getD 0 + j) %
                (u1 :: u2 :: rest).length) = i) = false := by
              rw [decide_eq_false_iff_not]; exact h
            rw [hb1, hb2]
        rw [List.countP_congr (fun x hx => by rw [hpt x hx])]
        exact countP_residue_range (u1 :: u2 :: rest).length i hn hi k
          ((counters routeId).getD 0)
      · exact hframe other hother

/-- Witness for C8: two distinct upstreams, `k = 2`, a fresh cursor map; the
four selections hit each upstream twice, and the cursor of route `r2` is
untouched. -/
theorem c8_witness :
    (∀ u ∈ ([⟨"http://a", none, none⟩, ⟨"http://b", none, none⟩] :
        List UpstreamConfig),
      (runRoundRobin [⟨"http://a", none, none⟩, ⟨"http://b", none, none⟩]
        "r1" (2 * ([⟨"http://a", none, none⟩,
          ⟨"http://b", none, none⟩] : List UpstreamConfig).length)
        (fun _ => none)).1.count u = 2) ∧
    (runRoundRobin [⟨"http://a", none, none⟩, ⟨"http://b", none, none⟩]
      "r1" (2 * ([⟨"http://a", none, none⟩,
        ⟨"http://b", none, none⟩] : List UpstreamConfig).length)
      (fun _ => none)).2 "r2" = (fun _ => (none : Option Nat)) "r2" :=
  c8_round_robin_fairness
    [⟨"http://a", none, none⟩, ⟨"http://b", none, none⟩] "r1" "r2" 2
    (fun _ => none) (by decide) (by decide) (by decide)

/-! ## Retry with backoff (src/shared/retry/index.ts)

`fn` is modelled as a pure oracle from the attempt index to the attempt's
outcome; a thrown JavaScript value is a `JsError` record (name, message,
optional `statusCode` property).  The `for` loop of `withRetry` becomes a
fuel recursion with `fuel = maxRetries - attempt`; sleeping and the
`onRetry` callback do not affect the returned value and are omitted. -/

/-- A thrown JavaScript error as `withRetry` observes it: `name`, `message`,
and the optional `statusCode` property. -/
structure JsError where
  name : String
  message : String
  statusCode : Option Int
  deriving DecidableEq, Repr

/-- `String.prototype.includes` on the underlying character lists. -/
def listContainsSub (sub : List Char) : List Char → Bool
  | [] => sub.isEmpty
  | c :: rest => sub.isPrefixOf (c :: rest) || listContainsSub sub rest

/-- JavaScript `s.includes(sub)`. -/
def stringIncludes (s sub : String) : Bool := listContainsSub sub.data s.data

/-- `isRetryableError(error)`: TypeError mentioning fetch, AbortError, or a
message containing one of the connection-error codes. -/
def isRetryableError (e : JsError) : Bool :=
  (e.name == "TypeError" && stringIncludes e.message "fetch") ||
  e.name == "AbortError" ||
  stringIncludes e.message "ECONNREFUSED" ||
  stringIncludes e.message "ECONNRESET" ||
  stringIncludes e.message "ETIMEDOUT" ||
  stringIncludes e.message "ENOTFOUND"

/-- `isRetryableStatusCode(statusCode, retryableCodes?)`. -/
def isRetryableStatusCode (statusCode : Int)
    (retryableCodes : Option (List Int)) : Bool :=
  (retryableCodes.getD [500, 502, 503, 504]).contains statusCode

/-- `RetryConfig` after `mergeRetryConfig` (all fields present). -/
structure RetryConfig where
  enabled : Bool
  maxRetries : Nat
  baseDelayMs : Nat
  maxDelayMs : Nat
  retryableStatusCodes : List Int
  deriving DecidableEq, Repr

/-- `RetryResult<T>`. -/
structure RetryResult (α : Type) where
  success : Bool
  result : Option α
  error : Option JsError
  attempts : Nat
  lastStatusCode : Option Int

/-- The `lastStatusCode` update after a throw: keep the previous value when
the error carries no `statusCode` property. -/
def nextStatus (e : JsError) (lastStatus : Option Int) : Option Int :=
  match e.statusCode with
  | some s => some s
  | none => lastStatus

/-- The loop's retry decision: `isRetryableError(lastError) ||
(lastStatusCode !== undefined && isRetryableStatusCode(lastStatusCode, ...))`
— evaluated on the *updated* `lastStatusCode`, which may be stale. -/
def errRetryable (cfg : RetryConfig) (e : JsError) (ls : Option Int) : Bool :=
  isRetryableError e ||
    (match ls with
     | some s => isRetryableStatusCode s (some cfg.retryableStatusCodes)
     | none => false)

/-- The `for (attempt = 0; attempt <= maxRetries; ...)` loop of `withRetry`,
with `fuel = maxRetries - attempt` (so `attempt < maxRetries` iff
`fuel > 0`). -/
def retryLoop (fn : Nat → Except JsError α) (cfg : RetryConfig) :
    Nat → Nat → Option Int → RetryResult α
  | fuel, attempt, lastStatus =>
    match fn attempt with
    | .ok v => ⟨true, some v, none, attempt + 1, lastStatus⟩
    | .error e =>
        let ls := nextStatus e lastStatus
        match fuel with
        | 0 => ⟨false, none, some e, attempt + 1, ls⟩
        | fuel2 + 1 =>
            if errRetryable cfg e ls then
              retryLoop fn cfg fuel2 (attempt + 1) ls
            else ⟨false, none, some e, attempt + 1, ls⟩

/-- `withRetry(fn, config)`: when `enabled=false`, one bare call with no
error classification; otherwise the loop from attempt 0. -/
def withRetry (fn : Nat → Except JsError α) (cfg : RetryConfig) :
    RetryResult α :=
  if !cfg.enabled then
    match fn 0 with
    | .ok v => ⟨true, some v, none, 1, none⟩
    | .error e => ⟨false, none, some e, 1, none⟩
  else retryLoop fn cfg cfg.maxRetries 0 none

/-- The `lastStatusCode` value after processing attempts `0..j` (assuming
they all threw; `ok` outcomes are skipped, which never arises on the
prefixes the loop actually visits). -/
def statusThrough (fn : Nat → Except JsError α) : Nat → Option Int
  | 0 =>
      match fn 0 with
      | .error e => e.statusCode
      | .ok _ => none
  | n + 1 =>
      match fn (n + 1) with
      | .error e => nextStatus e (statusThrough fn n)
      | .ok _ => statusThrough fn n

/-- The `lastStatusCode` value the loop holds when *entering* attempt `j`. -/
def prevStatus (fn : Nat → Except JsError α) : Nat → Option Int
  | 0 => none
  | n + 1 => statusThrough fn n

/-- The effective retry decision at attempt `j`: the current error's
classification, or the most recent extracted status code (possibly stale). -/
def effRetryable (fn : Nat → Except JsError α) (cfg : RetryConfig)
    (j : Nat) : Bool :=
  match fn j with
  | .ok _ => false
  | .error e => errRetryable cfg e (statusThrough fn j)

theorem nextStatus_prevStatus (fn : Nat → Except JsError α) (j : Nat)
    (e : JsError) (he : fn j = .error e) :
    nextStatus e (prevStatus fn j) = statusThrough fn j := by
  match j with
  | 0 =>
      simp only [statusThrough, prevStatus, he, nextStatus]
      cases e.statusCode <;> rfl
  | n + 1 =>
      simp only [statusThrough, prevStatus, he, nextStatus]

theorem retryLoop_spec (fn : Nat → Except JsError α) (cfg : RetryConfig) :
    ∀ (fuel attempt : Nat),
      attempt + 1 ≤
        (retryLoop fn cfg fuel attempt (prevStatus fn attempt)).attempts ∧
      (retryLoop fn cfg fuel attempt (prevStatus fn attempt)).attempts ≤
        attempt + fuel + 1 ∧
      (∀ j, attempt ≤ j →
        j + 1 < (retryLoop fn cfg fuel attempt
          (prevStatus fn attempt)).attempts →
        (∃ e, fn j = .error e) ∧ effRetryable fn cfg j = true) ∧
      ((retryLoop fn cfg fuel attempt (prevStatus fn attempt)).success =
          true →
        ∃ v, fn ((retryLoop fn cfg fuel attempt
          (prevStatus fn attempt)).attempts - 1) = .ok v) ∧
      ((retryLoop fn cfg fuel attempt (prevStatus fn attempt)).success =
          false →
        ∃ e, fn ((retryLoop fn cfg fuel attempt
            (prevStatus fn attempt)).attempts - 1) = .error e ∧
          ((retryLoop fn cfg fuel attempt
              (prevStatus fn attempt)).attempts = attempt + fuel + 1 ∨
            effRetryable fn cfg ((retryLoop fn cfg fuel attempt
              (prevStatus fn attempt)).attempts - 1) = false)) := by
  intro fuel
  induction fuel with
  | zero =>
      intro attempt
      cases hfn : fn attempt with
      | ok v =>
          have hres : retryLoop fn cfg 0 attempt (prevStatus fn attempt) =
              ⟨true, some v, none, attempt + 1, prevStatus fn attempt⟩ := by
            simp [retryLoop, hfn]
          rw [hres]
          dsimp only
          refine ⟨by omega, by omega, ?_, ?_, ?_⟩
          · intro j hj1 hj2; omega
          · intro _
            exact ⟨v, by simpa using hfn⟩
          · intro hcontra; cases hcontra
      | error e =>
          have hres : retryLoop fn cfg 0 attempt (prevStatus fn attempt) =
              ⟨false, none, some e, attempt + 1,
                nextStatus e (prevStatus fn attempt)⟩ := by
            simp [retryLoop, hfn]
          rw [hres]
          dsimp only
          refine ⟨by omega, by omega, ?_, ?_, ?_⟩
          · intro j hj1 hj2; omega
          · intro hcontra; cases hcontra
          · intro _
            exact ⟨e, by simpa using hfn, Or.inl (by omega)⟩
  | succ fuel2 ih =>
      intro attempt
      cases hfn : fn attempt with
      | ok v =>
          have hres : retryLoop fn cfg (fuel2 + 1) attempt
              (prevStatus fn attempt) =
              ⟨true, some v, none, attempt + 1, prevStatus fn attempt⟩ := by
            simp [retryLoop, hfn]
          rw [hres]
          dsimp only
          refine ⟨by omega, by omega, ?_, ?_, ?_⟩
          · intro j hj1 hj2; omega
          · intro _
            exact ⟨v, by simpa using hfn⟩
          · intro hcontra; cases hcontra
      | error e =>
          have hls : nextStatus e (prevStatus fn attempt) =
              statusThrough fn attempt := nextStatus_prevStatus fn attempt e hfn
          have heff : effRetryable fn cfg attempt =
              errRetryable cfg e (statusThrough fn attempt) := by
            simp [effRetryable, hfn]
          cases hr : errRetryable cfg e (nextStatus e (prevStatus fn attempt))
          with
          | true =>
              have hres : retryLoop fn cfg (fuel2 + 1) attempt
                  (prevStatus fn attempt) =
                  retryLoop fn cfg fuel2 (attempt + 1)
                    (prevStatus fn (attempt + 1)) := by
                have hstep : retryLoop fn cfg (fuel2 + 1) attempt
                    (prevStatus fn attempt) =
                    retryLoop fn cfg fuel2 (attempt + 1)
                      (nextStatus e (prevStatus fn attempt)) := by
                  conv_lhs => rw [retryLoop.eq_def]
                  simp [hfn, hr]
                rw [hstep, hls]
                rfl
              obtain ⟨ih1, ih2, ih3, ih4, ih5⟩ := ih (attempt + 1)
              rw [hres]
              refine ⟨by omega, by omega, ?_, ih4, ?_⟩
              · intro j hj1 hj2
                by_cases hje : j = attempt
                · subst hje
                  refine ⟨⟨e, hfn⟩, ?_⟩
                  rw [heff, ← hls, hr]
                · exact ih3 j (by omega) hj2
              · intro hfail
                obtain ⟨e2, he2, hdisj⟩ := ih5 hfail
                refine ⟨e2, he2, ?_⟩
                rcases hdisj with h | h
                · exact Or.inl (by omega)
                · exact Or.inr h
          | false =>
              have hres : retryLoop fn cfg (fuel2 + 1) attempt
                  (prevStatus fn attempt) =
                  ⟨false, none, some e, attempt + 1,
                    nextStatus e (prevStatus fn attempt)⟩ := by
                simp [retryLoop, hfn, hr]
              rw [hres]
              dsimp only
              refine ⟨by omega, by omega, ?_, ?_, ?_⟩
              · intro j hj1 hj2; omega
              · intro hcontra; cases hcontra
              · intro _
                refine ⟨e, by simpa using hfn, Or.inr ?_⟩
                simp only [Nat.add_sub_cancel]
                rw [heff, ← hls, hr]


/-- C3 counterexample.  `enabled=true`, `maxRetries=2`.  Attempt 0 throws an
error carrying `statusCode=500` (retryable); attempt 1 throws a plain error —
not classified retryable by name or message and carrying *no* `statusCode` —
yet `fn` is invoked a third time, because the loop's `lastStatusCode`
variable still holds the stale 500 from attempt 0.  The claim's "attempts
stop at the first non-retryable outcome" fails. -/
theorem c3_counterexample :
    (withRetry (fun n =>
        match n with
        | 0 => Except.error ⟨"Error", "first failure", some 500⟩
        | 1 => Except.error ⟨"Error", "second failure", none⟩
        | _ => Except.ok (42 : Nat))
      ⟨true, 2, 10, 30000, [500, 502, 503, 504]⟩).attempts = 3 ∧
    isRetryableError ⟨"Error", "second failure", none⟩ = false ∧
    (⟨"Error", "second failure", none⟩ : JsError).statusCode = none := by
  refine ⟨?_, ?_, rfl⟩
  · rfl
  · rfl

/-- C3 amended: with `enabled=false`, `fn` is called exactly once with no
error classification; with `enabled=true` and `maxRetries=n`, `fn` is
invoked at most `n+1` times, every retried attempt threw and was judged
retryable by the *effective* classification — the current error's
name/message classification OR the most recently extracted `statusCode`
(which persists from earlier attempts when the current error carries none)
being in `retryableStatusCodes` — and the run ends at the first attempt
that succeeds or is effectively non-retryable, or when the budget is
exhausted. -/
theorem c3_retry_amended {α : Type} (fn : Nat → Except JsError α)
    (cfg : RetryConfig) :
    (cfg.enabled = false →
      (withRetry fn cfg).attempts = 1 ∧
      ((∃ v, fn 0 = .ok v ∧
          withRetry fn cfg = ⟨true, some v, none, 1, none⟩) ∨
       (∃ e, fn 0 = .error e ∧
          withRetry fn cfg = ⟨false, none, some e, 1, none⟩))) ∧
    (cfg.enabled = true →
      1 ≤ (withRetry fn cfg).attempts ∧
      (withRetry fn cfg).attempts ≤ cfg.maxRetries + 1 ∧
      (∀ j, j + 1 < (withRetry fn cfg).attempts →
        (∃ e, fn j = .error e) ∧ effRetryable fn cfg j = true) ∧
      ((withRetry fn cfg).success = true →
        ∃ v, fn ((withRetry fn cfg).attempts - 1) = .ok v) ∧
      ((withRetry fn cfg).success = false →
        ∃ e, fn ((withRetry fn cfg).attempts - 1) = .error e ∧
          ((withRetry fn cfg).attempts = cfg.maxRetries + 1 ∨
            effRetryable fn cfg ((withRetry fn cfg).attempts - 1) =
              false))) := by
  constructor
  · intro hdis
    have hw : withRetry fn cfg =
        match fn 0 with
        | .ok v => ⟨true, some v, none, 1, none⟩
        | .error e => ⟨false, none, some e, 1, none⟩ := by
      simp [withRetry, hdis]
    cases hfn : fn 0 with
    | ok v =>
        rw [hw, hfn]
        exact ⟨rfl, Or.inl ⟨v, rfl, rfl⟩⟩
    | error e =>
        rw [hw, hfn]
        exact ⟨rfl, Or.inr ⟨e, rfl, rfl⟩⟩
  · intro hen
    have hw : withRetry fn cfg =
        retryLoop fn cfg cfg.maxRetries 0 (prevStatus fn 0) := by
      simp [withRetry, hen, prevStatus]
    obtain ⟨h1, h2, h3, h4, h5⟩ := retryLoop_spec fn cfg cfg.maxRetries 0
    rw [hw]
    refine ⟨by omega, by omega, ?_, h4, ?_⟩
    · intro j hj
      exact h3 j (Nat.zero_le j) hj
    · intro hfail
      obtain ⟨e, he, hdisj⟩ := h5 hfail
      refine ⟨e, he, ?_⟩
      rcases hdisj with h | h
      · exact Or.inl (by omega)
      · exact Or.inr h

/-- Witness for C3 amended: the disabled config calls the function exactly
once; the enabled config with `maxRetries = 2` stays within 3 attempts. -/
theorem c3_witness :
    (withRetry (fun _ => Except.ok (7 : Nat))
      ⟨false, 3, 10, 30000, [500, 502, 503, 504]⟩).attempts = 1 ∧
    (withRetry (fun _ => (Except.error ⟨"Error", "boom", none⟩ :
        Except JsError Nat))
      ⟨true, 2, 10, 30000, [500, 502, 503, 504]⟩).attempts ≤ 2 + 1 := by
  constructor
  · exact ((c3_retry_amended (fun _ => Except.ok (7 : Nat))
      ⟨false, 3, 10, 30000, [500, 502, 503, 504]⟩).1 rfl).1
  · exact ((c3_retry_amended (fun _ => (Except.error ⟨"Error", "boom", none⟩ :
        Except JsError Nat))
      ⟨true, 2, 10, 30000, [500, 502, 503, 504]⟩).2 rfl).2.1

/-! ## Tenant authentication (src/modules/tenant/tenant.service.ts and
src/middleware/tenant-auth.ts)

The Redis entry under `tenant:apikey:{apiKey}` is modelled as the parsed
cached tenant (`Option Tenant`), `findActiveTenants()` as the list the store
returns for that call, and bcrypt's `compare` as an oracle. -/

/-- The tenant view (`Tenant`), without `apiKeyHash`.  Timestamps are epoch
integers. -/
structure Tenant where
  id : String
  name : String
  isActive : Bool
  defaultRateLimit : Option RateLimitConfig
  createdAt : Int
  updatedAt : Int
  deriving DecidableEq, Repr

/-- A store row (`TenantRow`), including `apiKeyHash`. -/
structure TenantRow where
  id : String
  name : String
  apiKeyHash : String
  isActive : Bool
  defaultRateLimit : Option RateLimitConfig
  createdAt : Int
  updatedAt : Int
  deriving DecidableEq, Repr

/-- `mapToTenant(row)`: drop `apiKeyHash`. -/
def mapToTenant (row : TenantRow) : Tenant :=
  { id := row.id
    name := row.name
    isActive := row.isActive
    defaultRateLimit := row.defaultRateLimit
    createdAt := row.createdAt
    updatedAt := row.updatedAt }

/-- `validateApiKey(apiKey)`: cache hit with `isActive=false` returns null;
active hit returns the rehydrated tenant; on a miss, scan
`findActiveTenants()` in store order with bcrypt `compare` and cache the
first match.  Result: the returned tenant and the `SETEX` write, if any. -/
def validateApiKey (cached : Option Tenant) (activeTenants : List TenantRow)
    (bcryptCompare : String → String → Bool) (apiKey : String) :
    Option Tenant × Option Tenant :=
  match cached with
  | some tenant => if !tenant.isActive then (none, none) else (some tenant, none)
  | none =>
      match activeTenants.find?
          (fun row => bcryptCompare apiKey row.apiKeyHash) with
      | some row => (some (mapToTenant row), some (mapToTenant row))
      | none => (none, none)

/-- The terminal outcome of the tenant-auth middleware for one request. -/
inductive AuthOutcome where
  | unauthorized
  | forbidden
  | authenticated (tenant : Tenant)
  deriving DecidableEq, Repr

/-- The HTTP status the middleware sends (none: the request proceeds). -/
def statusCodeOf : AuthOutcome → Option Nat
  | .unauthorized => some 401
  | .forbidden => some 403
  | .authenticated _ => none

/-- `tenantAuthMiddleware` (identical logic in the `tenant-auth` plugin):
missing header → 401; `validateApiKey` null → 401; returned tenant inactive
→ 403; else attach the tenant and continue. -/
def tenantAuthMiddleware (cached : Option Tenant)
    (activeTenants : List TenantRow)
    (bcryptCompare : String → String → Bool)
    (apiKeyHeader : Option String) : AuthOutcome :=
  match apiKeyHeader with
  | none => .unauthorized
  | some apiKey =>
      match (validateApiKey cached activeTenants bcryptCompare apiKey).1 with
      | none => .unauthorized
      | some tenant =>
          if !tenant.isActive then .forbidden
          else .authenticated tenant

/-- C1 counterexample.  A cached tenant entry with `isActive=false`: the
pipeline answers 401, not the claimed 403 — `validateApiKey` returns null
for cached-inactive entries, so the middleware cannot distinguish them from
invalid keys and its 403 branch is not taken. -/
theorem c1_counterexample :
    statusCodeOf (tenantAuthMiddleware
      (some ⟨"t1", "Acme", false, none, 0, 0⟩) [] (fun _ _ => false)
      (some "the-key")) = some 401 ∧
    (some 401 : Option Nat) ≠ some 403 := by
  exact ⟨rfl, by decide⟩

/-- C1 amended: a request whose X-API-Key corresponds to a cached tenant
entry with `isActive=false` is denied with 401 — the same status as a
missing or unknown key; the pipeline layer does *not* distinguish the two
cases, and (given that the store scan only ever sees active rows, as
`findActiveTenants()` guarantees) the middleware's 403 branch is
unreachable: no request receives 403. -/
theorem c1_auth_pipeline_amended (cached : Option Tenant)
    (activeTenants : List TenantRow)
    (bcryptCompare : String → String → Bool)
    (hstore : ∀ row ∈ activeTenants, row.isActive = true) :
    (∀ tenant, cached = some tenant → tenant.isActive = false →
      ∀ apiKey, statusCodeOf (tenantAuthMiddleware cached activeTenants
        bcryptCompare (some apiKey)) = some 401) ∧
    statusCodeOf (tenantAuthMiddleware cached activeTenants
      bcryptCompare none) = some 401 ∧
    (cached = none → ∀ apiKey,
      activeTenants.find? (fun row => bcryptCompare apiKey row.apiKeyHash) =
        none →
      statusCodeOf (tenantAuthMiddleware cached activeTenants
        bcryptCompare (some apiKey)) = some 401) ∧
    (∀ apiKeyHeader, statusCodeOf (tenantAuthMiddleware cached activeTenants
      bcryptCompare apiKeyHeader) ≠ some 403) := by
  refine ⟨?_, rfl, ?_, ?_⟩
  · intro tenant hc hin apiKey
    subst hc
    simp [tenantAuthMiddleware, validateApiKey, hin, statusCodeOf]
  · intro hc apiKey hfind
    subst hc
    simp [tenantAuthMiddleware, validateApiKey, hfind, statusCodeOf]
  · intro apiKeyHeader
    match apiKeyHeader with
    | none => simp [tenantAuthMiddleware, statusCodeOf]
    | some apiKey =>
        match hc : cached with
        | some tenant =>
            by_cases hact : tenant.isActive
            · simp [tenantAuthMiddleware, validateApiKey, hact, statusCodeOf]
            · simp only [Bool.not_eq_true] at hact
              simp [tenantAuthMiddleware, validateApiKey, hact, statusCodeOf]
        | none =>
            match hfind : activeTenants.find?
                (fun row => bcryptCompare apiKey row.apiKeyHash) with
            | none =>
                simp [tenantAuthMiddleware, validateApiKey, hfind,
                  statusCodeOf]
            | some row =>
                have hmem : row ∈ activeTenants :=
                  List.mem_of_find?_eq_some hfind
                have hact : row.isActive = true := hstore row hmem
                simp [tenantAuthMiddleware, validateApiKey, hfind,
                  mapToTenant, hact, statusCodeOf]

/-- Witness for C1 amended at concrete inputs: a cached inactive tenant is
answered 401, and a missing header is answered 401. -/
theorem c1_witness :
    ((⟨"t2", "Globex", false, none, 5, 6⟩ : Tenant).isActive = false →
      statusCodeOf (tenantAuthMiddleware
        (some ⟨"t2", "Globex", false, none, 5, 6⟩) [] (fun _ _ => true)
        (some "k2")) = some 401) ∧
    statusCodeOf (tenantAuthMiddleware
      (some ⟨"t2", "Globex", false, none, 5, 6⟩) [] (fun _ _ => true)
      none) = some 401 := by
  have h := c1_auth_pipeline_amended
    (some ⟨"t2", "Globex", false, none, 5, 6⟩) [] (fun _ _ => true)
    (by intro row hrow; cases hrow)
  exact ⟨fun hin => h.1 ⟨"t2", "Globex", false, none, 5, 6⟩ rfl hin "k2",
    h.2.1⟩

/-! ## Route matching (src/modules/routing/routing.service.ts composed with
the repository filter `findActiveRoutesByTenantId`)

`new RegExp("^" + path + "$")` is a host primitive, modelled as an oracle
`regexCompile` from the pattern to its compiled test function (`none` when
compilation throws). -/

/-- `pathType` ∈ PathType (the `prefix` variant is named `prefixType`). -/
inductive PathType where
  | exact
  | prefixType
  | regex
  deriving DecidableEq, Repr

/-- JavaScript `s.startsWith(pre)`. -/
def jsStartsWith (s pre : String) : Bool := pre.data.isPrefixOf s.data

/-- `matchPath(routePath, requestPath, pathType)`. -/
def matchPath (regexCompile : String → Option (String → Bool))
    (routePath requestPath : String) : PathType → Bool
  | .exact => routePath == requestPath
  | .prefixType =>
      requestPath == routePath || jsStartsWith requestPath (routePath ++ "/")
  | .regex =>
      match regexCompile ("^" ++ routePath ++ "$") with
      | some test => test requestPath
      | none => false

/-- A `Route` as the matcher consumes it (the transform and resilience
configs are threaded to the proxy handler separately). -/
structure Route where
  id : String
  tenantId : String
  method : String
  path : String
  pathType : PathType
  upstreams : List UpstreamConfig
  loadBalancing : LoadBalancing
  isActive : Bool
  createdAt : Int
  updatedAt : Int
  deriving Repr

/-- The loop body's match condition: wildcard-or-equal method, and
`matchPath`. -/
def routeMatchPred (regexCompile : String → Option (String → Bool))
    (method path : String) (route : Route) : Bool :=
  (route.method == "*" || route.method == method) &&
  matchPath regexCompile route.path path route.pathType

/-- `matchRoute(tenantId, method, path)`: scan the tenant's *active* routes
(the repository's `WHERE isActive` filter) in store order; on the first
match call `selectUpstream`.  The outer `none` models the propagated
`No upstreams available` throw; `some (none, counters)` is the null
result. -/
def matchRoute (regexCompile : String → Option (String → Bool))
    (routes : List Route) (method path : String) (rand : ℚ)
    (counters : RRState) :
    Option (Option (Route × UpstreamConfig) × RRState) :=
  match (routes.filter (fun route => route.isActive)).find?
      (routeMatchPred regexCompile method path) with
  | none => some (none, counters)
  | some route =>
      match selectUpstream route.upstreams route.loadBalancing route.id rand
          counters with
      | some (u, counters2) => some (some (route, u), counters2)
      | none => none

/-- The specification's matching relation, written from the spec's words:
the route is active, its method is `*` or equal, and its path matches per
`pathType` — exact: string equality; prefix: the path equals `route.path`
or extends it past a `/`; regex: the compiled anchored pattern accepts. -/
def SpecRouteMatches (regexCompile : String → Option (String → Bool))
    (method path : String) (r : Route) : Prop :=
  r.isActive = true ∧
  (r.method = "*" ∨ r.method = method) ∧
  (match r.pathType with
   | .exact => r.path = path
   | .prefixType =>
       path = r.path ∨ ∃ restPath, path = r.path ++ "/" ++ restPath
   | .regex => ∃ test, regexCompile ("^" ++ r.path ++ "$") = some test ∧
       test path = true)

theorem jsStartsWith_iff (s pre : String) :
    jsStartsWith s pre = true ↔ ∃ rest, s = pre ++ rest := by
  unfold jsStartsWith
  rw [List.isPrefixOf_iff_prefix]
  constructor
  · rintro ⟨t, ht⟩
    refine ⟨⟨t⟩, String.ext ?_⟩
    rw [String.data_append]
    exact ht.symm
  · rintro ⟨rest, hrest⟩
    refine ⟨rest.data, ?_⟩
    rw [hrest, String.data_append]

theorem matchPath_exact_iff (rc : String → Option (String → Bool))
    (routePath requestPath : String) :
    matchPath rc routePath requestPath .exact = true ↔
      routePath = requestPath := by
  simp [matchPath]

theorem matchPath_prefix_iff (rc : String → Option (String → Bool))
    (routePath requestPath : String) :
    matchPath rc routePath requestPath .prefixType = true ↔
      (requestPath = routePath ∨
        ∃ restPath, requestPath = routePath ++ "/" ++ restPath) := by
  simp only [matchPath, Bool.or_eq_true, beq_iff_eq]
  constructor
  · rintro (h | h)
    · exact Or.inl h
    · obtain ⟨rest, hrest⟩ := (jsStartsWith_iff _ _).mp h
      exact Or.inr ⟨rest, hrest⟩
  · rintro (h | ⟨rest, hrest⟩)
    · exact Or.inl h
    · exact Or.inr ((jsStartsWith_iff _ _).mpr ⟨rest, hrest⟩)

theorem matchPath_regex_iff (rc : String → Option (String → Bool))
    (routePath requestPath : String) :
    matchPath rc routePath requestPath .regex = true ↔
      ∃ test, rc ("^" ++ routePath ++ "$") = some test ∧
        test requestPath = true := by
  simp only [matchPath]
  cases hrc : rc ("^" ++ routePath ++ "$") with
  | none => simp [hrc]
  | some test => simp [hrc]

theorem activeMatch_iff (rc : String → Option (String → Bool))
    (method path : String) (r : Route) :
    (r.isActive && routeMatchPred rc method path r) = true ↔
      SpecRouteMatches rc method path r := by
  unfold SpecRouteMatches
  simp only [routeMatchPred, Bool.and_eq_true, Bool.or_eq_true, beq_iff_eq]
  refine and_congr Iff.rfl (and_congr Iff.rfl ?_)
  match hpt : r.pathType with
  | .exact => rw [matchPath_exact_iff]
  | .prefixType => exact matchPath_prefix_iff rc r.path path
  | .regex => exact matchPath_regex_iff rc r.path path

theorem find?_filter_eq (p q : Route → Bool) :
    ∀ l : List Route,
      (l.filter p).find? q = l.find? (fun a => p a && q a) := by
  intro l
  induction l with
  | nil => rfl
  | cons a t ih =>
      by_cases hp : p a = true
      · rw [List.filter_cons_of_pos hp]
        by_cases hq : q a = true
        · rw [List.find?_cons_of_pos _ hq,
            List.find?_cons_of_pos _ (by rw [hp, hq]; rfl)]
        · have hq2 : q a = false := by simpa using hq
          rw [List.find?_cons_of_neg _ (by simp [hq2]),
            List.find?_cons_of_neg _ (by simp [hq2]), ih]
      · have hp2 : p a = false := by simpa using hp
        rw [List.filter_cons_of_neg (by simp [hp2]),
          List.find?_cons_of_neg _ (by simp [hp2]), ih]

theorem find?_eq_some_of_first (p : Route → Bool) :
    ∀ (pre : List Route) (r : Route) (post : List Route), p r = true →
      (∀ x ∈ pre, p x = false) → (pre ++ r :: post).find? p = some r := by
  intro pre
  induction pre with
  | nil =>
      intro r post hr _
      rw [List.nil_append, List.find?_cons_of_pos _ hr]
  | cons a t ih =>
      intro r post hr hpre
      have ha : p a = false := hpre a (by simp)
      rw [List.cons_append, List.find?_cons_of_neg _ (by simp [ha])]
      exact ih r post hr (fun x hx => hpre x (by simp [hx]))

theorem find?_eq_some_decomp (p : Route → Bool) :
    ∀ (l : List Route) (r : Route), l.find? p = some r →
      p r = true ∧
      ∃ pre post, l = pre ++ r :: post ∧ ∀ x ∈ pre, p x = false := by
  intro l
  induction l with
  | nil => intro r h; cases h
  | cons a t ih =>
      intro r h
      by_cases ha : p a = true
      · rw [List.find?_cons_of_pos _ ha] at h
        obtain rfl := Option.some.inj h
        exact ⟨ha, [], t, rfl, by intro x hx; cases hx⟩
      · have ha2 : p a = false := by simpa using ha
        rw [List.find?_cons_of_neg _ (by simp [ha2])] at h
        obtain ⟨hr, pre, post, hdecomp, hpre⟩ := ih r h
        refine ⟨hr, a :: pre, post, by rw [hdecomp]; rfl, ?_⟩
        intro x hx
        rcases List.mem_cons.mp hx with rfl | hx2
        · exact ha2
        · exact hpre x hx2

theorem selectUpstream_total (upstreams : List UpstreamConfig)
    (strategy : LoadBalancing) (routeId : String) (rand : ℚ)
    (counters : RRState) (hne : upstreams ≠ [])
    (h0 : 0 ≤ rand) (h1 : rand < 1) :
    ∃ u counters2,
      selectUpstream upstreams strategy routeId rand counters =
        some (u, counters2) := by
  match upstreams, hne with
  | [u], _ => exact ⟨u, counters, rfl⟩
  | u1 :: u2 :: rest, _ =>
      match strategy with
      | .roundRobin =>
          have hn : 0 < (u1 :: u2 :: rest).length := by simp
          refine ⟨(u1 :: u2 :: rest).getI
            (((counters routeId).getD 0) % (u1 :: u2 :: rest).length),
            rrBump routeId counters, ?_⟩
          exact selectUpstream_rr_cons2 u1 u2 rest routeId counters
      | .weighted =>
          cases hgo : selectWeightedGo
              (rand * totalWeight (u1 :: u2 :: rest)) (u1 :: u2 :: rest) with
          | none =>
              refine ⟨u1, counters, ?_⟩
              simp [selectUpstream, selectWeighted, hgo]
          | some u =>
              refine ⟨u, counters, ?_⟩
              simp [selectUpstream, selectWeighted, hgo]
      | .random =>
          have hn : (0 : ℚ) < ((u1 :: u2 :: rest).length : ℚ) := by
            have : 0 < (u1 :: u2 :: rest).length := by simp
            exact_mod_cast this
          have hflt : ⌊rand * ((u1 :: u2 :: rest).length : ℚ)⌋ <
              ((u1 :: u2 :: rest).length : ℤ) := by
            rw [Int.floor_lt]
            push_cast
            calc rand * ((u1 :: u2 :: rest).length : ℚ)
                < 1 * ((u1 :: u2 :: rest).length : ℚ) :=
                  mul_lt_mul_of_pos_right h1 hn
              _ = ((u1 :: u2 :: rest).length : ℚ) := one_mul _
          have hfge : (0 : ℤ) ≤ ⌊rand * ((u1 :: u2 :: rest).length : ℚ)⌋ :=
            Int.floor_nonneg.mpr (mul_nonneg h0 (le_of_lt hn))
          have hlt : (⌊rand * ((u1 :: u2 :: rest).length : ℚ)⌋).toNat <
              (u1 :: u2 :: rest).length := by omega
          refine ⟨(u1 :: u2 :: rest).get
            ⟨(⌊rand * ((u1 :: u2 :: rest).length : ℚ)⌋).toNat, hlt⟩,
            counters, ?_⟩
          simp only [selectUpstream, selectRandom]
          rw [List.get?_eq_get hlt]
          rfl

/-- C6: `matchRoute` returns exactly the first active route in store
iteration order whose method matches (`*` or equality) and whose path
matches per `pathType` — exact equality, prefix (`/api` matches `/api` and
`/api/x` but not `/apix`), or full anchored regex match with compilation
failure as no match — and returns the null result when no route matches. -/
theorem c6_match_route_first (rc : String → Option (String → Bool))
    (routes : List Route) (method path : String) (rand : ℚ)
    (counters : RRState)
    (hups : ∀ r ∈ routes, r.upstreams ≠ [])
    (h0 : 0 ≤ rand) (h1 : rand < 1) :
    ((∀ r ∈ routes, ¬SpecRouteMatches rc method path r) →
      matchRoute rc routes method path rand counters =
        some (none, counters)) ∧
    (∀ pre r post, routes = pre ++ r :: post →
      SpecRouteMatches rc method path r →
      (∀ x ∈ pre, ¬SpecRouteMatches rc method path x) →
      ∃ u counters2, matchRoute rc routes method path rand counters =
        some (some (r, u), counters2)) ∧
    (∀ r u counters2,
      matchRoute rc routes method path rand counters =
        some (some (r, u), counters2) →
      SpecRouteMatches rc method path r ∧
      ∃ pre post, routes = pre ++ r :: post ∧
        ∀ x ∈ pre, ¬SpecRouteMatches rc method path x) ∧
    (matchPath rc "/api" "/api" .prefixType = true ∧
     matchPath rc "/api" "/api/x" .prefixType = true ∧
     matchPath rc "/api" "/apix" .prefixType = false) := by
  have hcomb : ∀ l : List Route,
      (l.filter (fun route => route.isActive)).find?
        (routeMatchPred rc method path) =
      l.find? (fun r => r.isActive && routeMatchPred rc method path r) :=
    fun l => find?_filter_eq _ _ l
  refine ⟨?_, ?_, ?_, rfl, rfl, rfl⟩
  · intro hnone
    have hfind : routes.find?
        (fun r => r.isActive && routeMatchPred rc method path r) = none := by
      rw [List.find?_eq_none]
      intro x hx hcontra
      exact hnone x hx ((activeMatch_iff rc method path x).mp hcontra)
    unfold matchRoute
    rw [hcomb, hfind]
  · intro pre r post hdecomp hr hpre
    have hfind : routes.find?
        (fun r => r.isActive && routeMatchPred rc method path r) = some r := by
      rw [hdecomp]
      apply find?_eq_some_of_first
      · exact (activeMatch_iff rc method path r).mpr hr
      · intro x hx
        have : ¬SpecRouteMatches rc method path x := hpre x hx
        cases hb : (x.isActive && routeMatchPred rc method path x) with
        | false => rfl
        | true => exact absurd ((activeMatch_iff rc method path x).mp hb) this
    have hrmem : r ∈ routes := by rw [hdecomp]; simp
    obtain ⟨u, counters2, hsel⟩ := selectUpstream_total r.upstreams
      r.loadBalancing r.id rand counters (hups r hrmem) h0 h1
    refine ⟨u, counters2, ?_⟩
    unfold matchRoute
    rw [hcomb, hfind]
    dsimp only
    rw [hsel]
  · intro r u counters2 hres
    unfold matchRoute at hres
    rw [hcomb] at hres
    cases hfind : routes.find?
        (fun r => r.isActive && routeMatchPred rc method path r) with
    | none => rw [hfind] at hres; cases hres
    | some r0 =>
        rw [hfind] at hres
        dsimp only at hres
        cases hsel : selectUpstream r0.upstreams r0.loadBalancing r0.id rand
            counters with
        | none => rw [hsel] at hres; cases hres
        | some pair =>
            rw [hsel] at hres
            obtain ⟨u0, c0⟩ := pair
            dsimp only at hres
            have heq := Option.some.inj hres
            have heq1 : (some (r0, u0) : Option (Route × UpstreamConfig)) =
                some (r, u) := congrArg Prod.fst heq
            have heq2 := Option.some.inj heq1
            have hr0 : r0 = r := congrArg Prod.fst heq2
            subst hr0
            obtain ⟨hpred, pre, post, hdecomp, hpre⟩ :=
              find?_eq_some_decomp _ routes r0 hfind
            refine ⟨(activeMatch_iff rc method path r0).mp hpred,
              pre, post, hdecomp, ?_⟩
            intro x hx hs
            have hx2 := (activeMatch_iff rc method path x).mpr hs
            rw [hpre x hx] at hx2
            exact Bool.false_ne_true hx2

/-- Witness for C6: two routes — an inactive one first, then an active
prefix route `/api` — and the request `GET /api/users`: the active prefix
route is the first (and only) spec-level match and `matchRoute` selects
it. -/
theorem c6_witness :
    ∃ u counters2,
      matchRoute (fun _ => none)
        [⟨"r1", "t", "GET", "/api/users", .exact,
            [⟨"http://dead", none, none⟩], .roundRobin, false, 0, 0⟩,
         ⟨"r2", "t", "GET", "/api", .prefixType,
            [⟨"http://svc", none, none⟩], .roundRobin, true, 0, 0⟩]
        "GET" "/api/users" 0 (fun _ => none) =
      some (some (⟨"r2", "t", "GET", "/api", .prefixType,
        [⟨"http://svc", none, none⟩], .roundRobin, true, 0, 0⟩, u),
        counters2) := by
  have hSpec : SpecRouteMatches (fun _ => none) "GET" "/api/users"
      ⟨"r2", "t", "GET", "/api", .prefixType,
        [⟨"http://svc", none, none⟩], .roundRobin, true, 0, 0⟩ :=
    ⟨rfl, Or.inr rfl, Or.inr ⟨"users", rfl⟩⟩
  have hPre : ∀ x ∈ [(⟨"r1", "t", "GET", "/api/users", .exact,
      [⟨"http://dead", none, none⟩], .roundRobin, false, 0, 0⟩ : Route)],
      ¬SpecRouteMatches (fun _ => none) "GET" "/api/users" x := by
    intro x hx hs
    rcases List.mem_singleton.mp hx with rfl
    exact Bool.false_ne_true hs.1
  exact (c6_match_route_first (fun _ => none)
    [⟨"r1", "t", "GET", "/api/users", .exact,
        [⟨"http://dead", none, none⟩], .roundRobin, false, 0, 0⟩,
     ⟨"r2", "t", "GET", "/api", .prefixType,
        [⟨"http://svc", none, none⟩], .roundRobin, true, 0, 0⟩]
    "GET" "/api/users" 0 (fun _ => none)
    (by decide) (by norm_num) (by norm_num)).2.1
    [⟨"r1", "t", "GET", "/api/users", .exact,
        [⟨"http://dead", none, none⟩], .roundRobin, false, 0, 0⟩]
    ⟨"r2", "t", "GET", "/api", .prefixType,
        [⟨"http://svc", none, none⟩], .roundRobin, true, 0, 0⟩
    [] rfl hSpec hPre

/-! ## Proxy URL construction and path rewrite (routing.handler.ts lines
around `handleProxy`, with src/shared/transformer/index.ts)

The handler builds the full upstream URL — upstream origin, the remainder
after the prefix, and the original query string — and *then* calls
`transformRequest(headers, upstreamUrl, route.transform)`, so
`applyPathRewrite` receives the complete URL as its `path` argument.  The
rewrite is modelled for the fragment of patterns of the form
`"^" ++ literal` with a metacharacter-free literal: `new RegExp` compiles
such a pattern, and `String.replace` substitutes the match at position 0
exactly when the subject starts with the literal. -/

/-- Lines 321–334 of the handler: start from `upstream.url`; for a prefix
route append `urlPath.slice(route.path.length)`; append `?query` when the
query string is non-empty. -/
def buildUpstreamUrl (upstreamUrl routePath : String) (pathType : PathType)
    (urlPath queryString : String) : String :=
  let base := if pathType = .prefixType
    then upstreamUrl ++ (urlPath.drop routePath.length)
    else upstreamUrl
  if queryString ≠ "" then base ++ "?" ++ queryString else base

/-- `applyPathRewrite(path, {pattern: "^" ++ lit, replacement})` for a
literal `lit` without regex metacharacters: replace the position-0 match
when the subject starts with `lit`, else return the subject unchanged
(`String.replace` with an anchored pattern). -/
def applyPathRewriteAnchored (lit replacement s : String) : String :=
  if lit.data.isPrefixOf s.data then replacement ++ s.drop lit.length else s

/-- The `finalUrl` the handler forwards: the built upstream URL, passed
through the path rewrite when `route.transform.request.pathRewrite` is
configured (`rewriteCfg = some (lit, replacement)` encodes the pattern
`"^" ++ lit`). -/
def handlerFinalUrl (upstreamUrl routePath : String) (pathType : PathType)
    (urlPath queryString : String)
    (rewriteCfg : Option (String × String)) : String :=
  match rewriteCfg with
  | none => buildUpstreamUrl upstreamUrl routePath pathType urlPath queryString
  | some (lit, replacement) =>
      applyPathRewriteAnchored lit replacement
        (buildUpstreamUrl upstreamUrl routePath pathType urlPath queryString)

theorem buildUpstreamUrl_data (upstreamUrl routePath : String)
    (pathType : PathType) (urlPath queryString : String) :
    ∃ tail, (buildUpstreamUrl upstreamUrl routePath pathType urlPath
      queryString).data = upstreamUrl.data ++ tail := by
  unfold buildUpstreamUrl
  by_cases hpt : pathType = .prefixType
  · by_cases hq : queryString ≠ ""
    · refine ⟨(urlPath.drop routePath.length).data ++ "?".data ++
        queryString.data, ?_⟩
      simp [hpt, hq, String.data_append]
    · refine ⟨(urlPath.drop routePath.length).data, ?_⟩
      simp [hpt, hq, String.data_append]
  · by_cases hq : queryString ≠ ""
    · refine ⟨"?".data ++ queryString.data, ?_⟩
      simp [hpt, hq, String.data_append]
    · refine ⟨[], ?_⟩
      simp [hpt, hq]

/-- C9: the rewrite regex is applied to the complete upstream URL — origin,
appended prefix remainder, appended query string — not to the request path;
hence a pattern anchored at the start of a path (`"^" ++ lit` with `lit`
starting with a slash, such as `^/api`) never matches, because the subject
begins with the upstream scheme (`http…`), and the URL is forwarded
unrewritten. -/
theorem c9_path_rewrite_on_full_url (upstreamUrl routePath : String)
    (pathType : PathType) (urlPath queryString lit replacement : String)
    (hscheme : "http".data.isPrefixOf upstreamUrl.data = true)
    (hlit : lit.data.head? = some (Char.ofNat 47)) :
    handlerFinalUrl upstreamUrl routePath pathType urlPath queryString
        (some (lit, replacement)) =
      buildUpstreamUrl upstreamUrl routePath pathType urlPath queryString := by
  obtain ⟨tail, htail⟩ :=
    buildUpstreamUrl_data upstreamUrl routePath pathType urlPath queryString
  have hhead : (buildUpstreamUrl upstreamUrl routePath pathType urlPath
      queryString).data.head? = some (Char.ofNat 104) := by
    rw [htail]
    obtain ⟨t0, ht0⟩ := List.isPrefixOf_iff_prefix.mp hscheme
    rw [← ht0]
    rfl
  have hnp : lit.data.isPrefixOf (buildUpstreamUrl upstreamUrl routePath
      pathType urlPath queryString).data = false := by
    cases hfx : lit.data.isPrefixOf (buildUpstreamUrl upstreamUrl routePath
        pathType urlPath queryString).data with
    | false => rfl
    | true =>
        exfalso
        obtain ⟨t1, ht1⟩ := List.isPrefixOf_iff_prefix.mp hfx
        cases hld : lit.data with
        | nil => rw [hld] at hlit; cases hlit
        | cons c cs =>
            rw [hld] at hlit
            have hc : c = Char.ofNat 47 := by
              injection hlit
            rw [hld] at ht1
            have : (buildUpstreamUrl upstreamUrl routePath pathType urlPath
                queryString).data.head? = some c := by
              rw [← ht1]
              rfl
            rw [hhead] at this
            have hcontra : Char.ofNat 104 = c := by injection this
            rw [hc] at hcontra
            have : (104 : Nat) = 47 := by
              have := congrArg Char.toNat hcontra
              simpa using this
            omega
  unfold handlerFinalUrl applyPathRewriteAnchored
  dsimp only
  rw [hnp]
  simp

/-- Witness for C9 — the spec's own scenario 6: upstream `http://svc/v2`,
prefix route `/api`, request `GET /api/users?x=1`, rewrite pattern `^/api`
with empty replacement.  The rewrite leaves the URL untouched. -/
theorem c9_witness :
    handlerFinalUrl "http://svc/v2" "/api" .prefixType "/api/users" "x=1"
        (some ("/api", "")) =
      buildUpstreamUrl "http://svc/v2" "/api" .prefixType "/api/users"
        "x=1" :=
  c9_path_rewrite_on_full_url "http://svc/v2" "/api" .prefixType
    "/api/users" "x=1" "/api" "" (by decide) (by decide)

end Gateway
